import Mathlib

/-!
# deSEC provider of dnscontrol: normalisation and correction building

A shallow embedding of `providers/desec/desecProvider.go`; the generator of the
feature matrix, `build/generate/featureMatrix.go`, follows in the namespace
`Generate`. Definitions come first, theorems after them.

* Records are Go pointers (`*models.RecordConfig`).  A pointer is a `Ptr`, the
  objects live in a `Heap`, and an assignment `rec.TTL = v` is a heap update, so
  that a record object referenced from two places is updated in both.
* `printer.Warnf` appends one string to the list of emitted warnings.
* `uint32` values are natural numbers; the code only compares and assigns them.
* Functions of other packages (`idna.ToASCII`, `searchDomainIndex`,
  `diff.ChangedGroups`, `diff.GenerateMessageCorrections`, `GroupedByKey`,
  `recordsToNative`, `dnsutil.TrimDomainName`) are parameters, gathered in
  `Collaborators`.
* A Go map that is ranged over is given as the list of its entries in the order in
  which the runtime enumerates them.
-/

namespace Desec

/-! ## Data model -/

/-- The key `models.RecordKey`, the pair of FQDN and type that names a record set
(`Type_` is the Go field `Type`). -/
structure RecordKey where
  NameFQDN : String
  Type_ : String
deriving DecidableEq, Repr

/-- The fields of `models.RecordConfig` read or written by the provider (`Type_` is
the Go field `Type`, a reserved word here); `Target` stands for the payload fields,
which the provider code never touches. -/
structure RecordConfig where
  Type_ : String
  TTL : Nat
  NameFQDN : String
  Target : String
deriving DecidableEq, Repr

/-- A non-nil `*models.RecordConfig`. -/
abbrev Ptr := Nat

/-- The record objects, by address. -/
abbrev Heap := Ptr → RecordConfig

/-- The assignment `rec.TTL = ttl` through the pointer `rec`. -/
def Heap.setTTL (h : Heap) (rec : Ptr) (ttl : Nat) : Heap :=
  fun q => if q = rec then { h q with TTL := ttl } else h q

/-- The fields of `models.DomainConfig` used by the provider. -/
structure DomainConfig where
  Name : String
  Records : List Ptr
deriving DecidableEq, Repr

/-- The accessor `rec.GetLabelFQDN()`. -/
def RecordConfig.GetLabelFQDN (rec : RecordConfig) : String := rec.NameFQDN

/-! ## Capability declaration -/

/-- The capabilities of `providers.Capability` named in the `features` table or
resolved by `matrixData`. -/
inductive Capability where
  | CanAutoDNSSEC | CanGetZones | CanConcur | CanUseAlias | CanUseCAA | CanUseDS
  | CanUseDNSKEY | CanUseHTTPS | CanUseLOC | CanUseNAPTR | CanUsePTR | CanUseSRV
  | CanUseSSHFP | CanUseSVCB | CanUseTLSA | DocCreateDomains | DocDualHost
  | DocOfficiallySupported | CanUseDHCID | CanUseDNAME | CanUseSOA
deriving DecidableEq, Repr

/-- The note `providers.DocumentationNote`. -/
structure DocumentationNote where
  HasFeature : Bool
  Unimplemented : Bool
  Comment : String
deriving DecidableEq, Repr

/-- The constructor `providers.Can(comments...)`. -/
def Can (comment : String) : DocumentationNote :=
  { HasFeature := true, Unimplemented := false, Comment := comment }

/-- The constructor `providers.Cannot(comments...)`. -/
def Cannot (comment : String) : DocumentationNote :=
  { HasFeature := false, Unimplemented := false, Comment := comment }

/-- The constructor `providers.Unimplemented(comments...)`. -/
def Unimplemented (comment : String) : DocumentationNote :=
  { HasFeature := false, Unimplemented := true, Comment := comment }

/-- The table `features` of the deSEC provider. -/
def features : List (Capability × DocumentationNote) :=
  [ (.CanAutoDNSSEC, Can "deSEC always signs all records. When trying to disable, a notice is printed."),
    (.CanGetZones, Can ""),
    (.CanConcur, Can ""),
    (.CanUseAlias, Unimplemented "Apex aliasing is supported via new SVCB and HTTPS record types. For details, check the deSEC docs."),
    (.CanUseCAA, Can ""),
    (.CanUseDS, Can ""),
    (.CanUseDNSKEY, Can ""),
    (.CanUseHTTPS, Can ""),
    (.CanUseLOC, Unimplemented ""),
    (.CanUseNAPTR, Can ""),
    (.CanUsePTR, Can ""),
    (.CanUseSRV, Can ""),
    (.CanUseSSHFP, Can ""),
    (.CanUseSVCB, Can ""),
    (.CanUseTLSA, Can ""),
    (.DocCreateDomains, Can ""),
    (.DocDualHost, Unimplemented ""),
    (.DocOfficiallySupported, Cannot "") ]

/-- The lookup `features[capability]`; `none` is the nil note of an unlisted capability. -/
def featuresNote (c : Capability) : Option DocumentationNote :=
  (features.find? (fun e => decide (e.1 = c))).map Prod.snd

/-! ## PrepDesiredRecords -/

/-- The warning printed for a dropped ALIAS record. -/
def aliasWarning : String := "deSEC does not support alias records\n"

/-- The warning printed when the TTL of `rec` is raised to `minTTL`:
`Warnf("Please contact ... < %d. Setting TTL of %s type %s from %d to %d\n", ...)`. -/
def ttlWarning (minTTL : Nat) (rec : RecordConfig) : String :=
  "Please contact support@desec.io if you need TTLs < " ++ toString minTTL ++
    ". Setting TTL of " ++ rec.GetLabelFQDN ++ " type " ++ rec.Type_ ++
    " from " ++ toString rec.TTL ++ " to " ++ toString minTTL ++ "\n"

/-- The variables of the loop of `PrepDesiredRecords`: the record objects, the
slice `recordsToKeep` and the warnings printed so far. -/
structure PrepState where
  heap : Heap
  recordsToKeep : List Ptr
  log : List String

/-- One iteration of `for _, rec := range dc.Records`. -/
def PrepDesiredRecords.step (minTTL : Nat) (st : PrepState) (rec : Ptr) : PrepState :=
  if (st.heap rec).Type_ = "ALIAS" then
    { st with log := st.log ++ [aliasWarning] }
  else if (st.heap rec).TTL < minTTL then
    { heap := st.heap.setTTL rec minTTL
      recordsToKeep := st.recordsToKeep ++ [rec]
      log := if (st.heap rec).Type_ ≠ "NS" then st.log ++ [ttlWarning minTTL (st.heap rec)]
             else st.log }
  else
    { st with recordsToKeep := st.recordsToKeep ++ [rec] }

/-- What a call of `PrepDesiredRecords` leaves behind: the record objects, the
domain configuration and the warnings printed. -/
structure PrepResult where
  heap : Heap
  dc : DomainConfig
  log : List String

/-- The function `PrepDesiredRecords(dc, minTTL)`. -/
def PrepDesiredRecords (heap : Heap) (dc : DomainConfig) (minTTL : Nat) : PrepResult :=
  let st := dc.Records.foldl (PrepDesiredRecords.step minTTL) ⟨heap, [], []⟩
  { heap := st.heap, dc := { dc with Records := st.recordsToKeep }, log := st.log }

/-- The list without the repetitions of an element that occurred before; used to
state which record objects are warned about when a pointer occurs twice. -/
def firstOccurrences : List Ptr → List Ptr
  | [] => []
  | p :: t => p :: (firstOccurrences t).filter (fun q => decide (q ≠ p))

/-- The test under which `PrepDesiredRecords` prints a TTL warning for the record
object `p` in the heap `h`: lines 147, 152 and 153 of the source. -/
def needsWarning (minTTL : Nat) (h : Heap) (p : Ptr) : Bool :=
  decide ((h p).Type_ ≠ "ALIAS" ∧ (h p).Type_ ≠ "NS" ∧ (h p).TTL < minTTL)

/-! ## GetZoneRecordsCorrections -/

/-- The struct `resourceRecord` sent to the deSEC API, with the fields the provider
sets. `Records = none` is the nil slice, `some []` an allocated empty one. -/
structure resourceRecord where
  Subname : String
  Records : Option (List String)
  TTL : Nat
  Type_ : String
deriving DecidableEq, Repr

/-- The deferred action `F` of a `models.Correction`. -/
inductive Action where
  /-- A value built by another package (for instance the nil action of a report). -/
  | foreign (tag : Nat)
  /-- The closure of lines 241 to 248, which calls `c.upsertRR(rrs, punycodeName)`. -/
  | upsertRR (rc : List resourceRecord) (domain : String)
deriving DecidableEq, Repr

/-- The struct `models.Correction`: a message and a deferred action. -/
structure Correction where
  Msg : String
  F : Action
deriving DecidableEq, Repr

/-- How a call ends when it does not return normally: with a Go `error` value or
with a panic. -/
inductive Err where
  | error (msg : String)
  | panic (msg : String)
deriving DecidableEq, Repr

/-- Equality of results is decidable when it is so for errors and values. -/
instance instDecidableEqExcept {ε α : Type} [DecidableEq ε] [DecidableEq α] :
    DecidableEq (Except ε α) := fun x y =>
  match x, y with
  | .ok a, .ok b =>
    if h : a = b then isTrue (by rw [h]) else isFalse (fun e => h (by cases e; rfl))
  | .error a, .error b =>
    if h : a = b then isTrue (by rw [h]) else isFalse (fun e => h (by cases e; rfl))
  | .ok _, .error _ => isFalse (fun e => by cases e)
  | .error _, .ok _ => isFalse (fun e => by cases e)

/-- The functions of other packages called by `GetZoneRecordsCorrections`.
`ChangedGroups` returns the map `keysToUpdate` as the list of its entries in the
order in which `range` enumerates them, then `toReport` and the change count.
A result `none` of `GenerateMessageCorrections` is the nil slice. -/
structure Collaborators where
  ToASCII : String → Except String String
  searchDomainIndex : String → Except String (Nat × Bool)
  ChangedGroups : Heap → DomainConfig → List Ptr →
    Except String (List (RecordKey × List String) × List String × Nat)
  GenerateMessageCorrections : List String → Option (List Correction)
  GroupedByKey : Heap → List Ptr → RecordKey → Option (List Ptr)
  recordsToNative : Heap → List Ptr → String → List resourceRecord
  TrimDomainName : String → String → String

/-- The length `len(s)` of a slice that may be nil. -/
def sliceLen {α : Type} (s : Option (List α)) : Nat :=
  match s with
  | none => 0
  | some l => l.length

/-- The elements of a slice that may be nil. -/
def sliceElems {α : Type} (s : Option (List α)) : List α :=
  match s with
  | none => []
  | some l => l

/-- The variables of the loop over `keysToUpdate`: the payload `rrs` and the lines
written to `buf` with `fmt.Fprintln`, oldest first. -/
structure LoopState where
  rrs : List resourceRecord
  buf : List String
deriving DecidableEq, Repr

/-- The content `buf.String()`: every line followed by a newline. -/
def LoopState.bufString (st : LoopState) : String :=
  String.join (st.buf.map (fun line => line ++ "\n"))

/-- The resource-record set built on lines 201 to 209 for a key that is to be
deleted. -/
def GetZoneRecordsCorrections.deleteRR (env : Collaborators) (punycodeName : String)
    (label : RecordKey) : resourceRecord :=
  let rc : resourceRecord := { Subname := "", Records := none, TTL := 0, Type_ := "" }
  let rc := { rc with Type_ := label.Type_ }
  let rc := { rc with Records := some [] }
  let rc := { rc with TTL := 3600 }
  let shortname := env.TrimDomainName label.NameFQDN punycodeName
  let shortname := if shortname = "@" then "" else shortname
  { rc with Subname := shortname }

/-- One iteration of the loop of lines 199 to 216 (a key absent from
`desiredRecords`), at index `i` with message `msg`. -/
def GetZoneRecordsCorrections.deleteMsg (env : Collaborators) (punycodeName : String)
    (label : RecordKey) (st : LoopState) (i : Nat) (msg : String) : LoopState :=
  if i = 0 then
    let rc := GetZoneRecordsCorrections.deleteRR env punycodeName label
    { rrs := st.rrs ++ [rc], buf := st.buf ++ [msg] }
  else
    { st with buf := st.buf ++ [msg] }

/-- One iteration of the loop of lines 223 to 231 (a key present in
`desiredRecords`); `ns[0]` panics when `ns` is empty. -/
def GetZoneRecordsCorrections.updateMsg (ns : List resourceRecord) (st : LoopState)
    (i : Nat) (msg : String) : Except Err LoopState :=
  if i = 0 then
    match ns with
    | [] => .error (.panic "index out of range [0] with length 0")
    | r :: _ => .ok { rrs := st.rrs ++ [r], buf := st.buf ++ [msg] }
  else
    .ok { st with buf := st.buf ++ [msg] }

/-- The body of `for label := range keysToUpdate` (lines 196 to 232) for the entry
`label`, `keysToUpdate[label]`. -/
def GetZoneRecordsCorrections.key (env : Collaborators) (heap : Heap)
    (desiredRecords : RecordKey → Option (List Ptr)) (punycodeName : String)
    (st : LoopState) (entry : RecordKey × List String) : Except Err LoopState :=
  match desiredRecords entry.1 with
  | none =>
    .ok (entry.2.enum.foldl
      (fun s im => GetZoneRecordsCorrections.deleteMsg env punycodeName entry.1 s im.1 im.2) st)
  | some group =>
    let ns := env.recordsToNative heap group punycodeName
    if ns.length > 1 then
      .error (.panic "we got more than one resource record to create / modify")
    else
      entry.2.enum.foldlM (fun s im => GetZoneRecordsCorrections.updateMsg ns s im.1 im.2) st

/-- The loop of lines 195 to 233 over the entries of `keysToUpdate`, starting from
the state `st`. -/
def GetZoneRecordsCorrections.loopFrom (env : Collaborators) (heap : Heap)
    (desiredRecords : RecordKey → Option (List Ptr)) (punycodeName : String)
    (st : LoopState) (keysToUpdate : List (RecordKey × List String)) :
    Except Err LoopState :=
  keysToUpdate.foldlM (GetZoneRecordsCorrections.key env heap desiredRecords punycodeName) st

/-- The loop of lines 192 to 233: `rrs` starts nil and `buf` empty. -/
def GetZoneRecordsCorrections.loop (env : Collaborators) (heap : Heap)
    (desiredRecords : RecordKey → Option (List Ptr)) (punycodeName : String)
    (keysToUpdate : List (RecordKey × List String)) : Except Err LoopState :=
  GetZoneRecordsCorrections.loopFrom env heap desiredRecords punycodeName
    { rrs := [], buf := [] } keysToUpdate

/-- Lines 236 to 250: the upsert correction is appended when `rrs` is not empty. -/
def GetZoneRecordsCorrections.finish (punycodeName : String)
    (corrections : Option (List Correction)) (st : LoopState) :
    Option (List Correction) :=
  if st.rrs.length > 0 then
    let msg := "Changes:\n" ++ st.bufString
    some (sliceElems corrections ++ [{ Msg := msg, F := .upsertRR st.rrs punycodeName }])
  else
    corrections

/-- Lines 185 to 260, the part of `GetZoneRecordsCorrections` that follows the
diff: from the record objects, the normalised `dc.Records` and the diff result
`(keysToUpdate, toReport, actualChangeCount)` to the returned values. -/
def GetZoneRecordsCorrections.afterDiff (env : Collaborators) (heap : Heap)
    (records : List Ptr) (punycodeName : String)
    (keysToUpdate : List (RecordKey × List String)) (toReport : List String)
    (actualChangeCount : Nat) : Except Err (Option (List Correction) × Nat) :=
  let corrections := env.GenerateMessageCorrections toReport
  if sliceLen corrections = 0 ∧ keysToUpdate.length = 0 then
    .ok (none, 0)
  else
    let desiredRecords := env.GroupedByKey heap records
    match GetZoneRecordsCorrections.loop env heap desiredRecords punycodeName
        keysToUpdate with
    | .error e => .error e
    | .ok st =>
      .ok (GetZoneRecordsCorrections.finish punycodeName corrections st, actualChangeCount)

/-- What a call of `GetZoneRecordsCorrections` leaves behind: the record objects and
`dc` as modified by the call, the warnings printed, and the returned
`(corrections, count)` or the failure. -/
structure Outcome where
  heap : Heap
  dc : DomainConfig
  log : List String
  ret : Except Err (Option (List Correction) × Nat)

/-- The method `GetZoneRecordsCorrections(dc, existing)`. -/
def GetZoneRecordsCorrections (env : Collaborators) (heap : Heap) (dc : DomainConfig)
    (existing : List Ptr) : Outcome :=
  match env.ToASCII dc.Name with
  | .error e => { heap := heap, dc := dc, log := [], ret := .error (.error e) }
  | .ok punycodeName =>
    match env.searchDomainIndex punycodeName with
    | .error e => { heap := heap, dc := dc, log := [], ret := .error (.error e) }
    | .ok (ttl, ok) =>
      let minTTL := if !ok then 3600 else ttl
      let prep := PrepDesiredRecords heap dc minTTL
      { heap := prep.heap
        dc := prep.dc
        log := prep.log
        ret :=
          match env.ChangedGroups prep.heap prep.dc existing with
          | .error e => .error (.error e)
          | .ok (keysToUpdate, toReport, actualChangeCount) =>
            GetZoneRecordsCorrections.afterDiff env prep.heap prep.dc.Records punycodeName
              keysToUpdate toReport actualChangeCount }

/-- The resource-record set that the loop adds to the payload for a key with at
least one message: the deletion set for a key absent from `desiredRecords`, else
`ns[0]`. -/
def GetZoneRecordsCorrections.rrOf (env : Collaborators) (heap : Heap)
    (desiredRecords : RecordKey → Option (List Ptr)) (punycodeName : String)
    (label : RecordKey) : Option resourceRecord :=
  match desiredRecords label with
  | none => some (GetZoneRecordsCorrections.deleteRR env punycodeName label)
  | some group => (env.recordsToNative heap group punycodeName).head?

/-- What an entry of `keysToUpdate` adds to the payload: nothing without a message. -/
def GetZoneRecordsCorrections.payloadOf (env : Collaborators) (heap : Heap)
    (desiredRecords : RecordKey → Option (List Ptr)) (punycodeName : String)
    (entry : RecordKey × List String) : Option resourceRecord :=
  if entry.2 = [] then none
  else GetZoneRecordsCorrections.rrOf env heap desiredRecords punycodeName entry.1

/-- The entries on which the body of the loop does not panic: `recordsToNative`
gives at most one record set for a key of `desiredRecords`, and exactly one when
the key has a message. -/
def GetZoneRecordsCorrections.keyOk (env : Collaborators) (heap : Heap)
    (desiredRecords : RecordKey → Option (List Ptr)) (punycodeName : String)
    (entry : RecordKey × List String) : Prop :=
  ∀ group, desiredRecords entry.1 = some group →
    (env.recordsToNative heap group punycodeName).length ≤ 1 ∧
    (entry.2 ≠ [] → (env.recordsToNative heap group punycodeName).length = 1)

/-! ## Sample data used to evaluate the definitions -/

/-- Sample record objects: an A record with a low TTL, an apex ALIAS, an apex NS
with a low TTL, a LOC record, and the two members of an MX record set. -/
def sampleHeap : Heap := fun p =>
  if p = 0 then { Type_ := "A", TTL := 60, NameFQDN := "www.example.com", Target := "1.2.3.4" }
  else if p = 1 then
    { Type_ := "ALIAS", TTL := 300, NameFQDN := "example.com", Target := "target.example.net." }
  else if p = 2 then
    { Type_ := "NS", TTL := 60, NameFQDN := "example.com", Target := "ns1.desec.io." }
  else if p = 3 then
    { Type_ := "LOC", TTL := 3600, NameFQDN := "example.com", Target := "52 22 23 N 4 53 32 E" }
  else if p = 4 then
    { Type_ := "MX", TTL := 3600, NameFQDN := "mail.example.com", Target := "10 a.example.com." }
  else
    { Type_ := "MX", TTL := 3600, NameFQDN := "mail.example.com", Target := "20 b.example.com." }

/-- Sample collaborators: the zone is known with a minimum TTL of 300, the diff
result is the given `keysToUpdate` (in the given enumeration order) with the given
report, there is one message-only correction per report line, records are grouped by
FQDN and type, a group becomes one record set with the targets of its members, and
names are trimmed by a table. -/
def sampleEnv (keysToUpdate : List (RecordKey × List String)) (toReport : List String) :
    Collaborators where
  ToASCII := fun s => .ok s
  searchDomainIndex := fun _ => .ok (300, true)
  ChangedGroups := fun _ _ _ => .ok (keysToUpdate, toReport, keysToUpdate.length)
  GenerateMessageCorrections := fun msgs =>
    if msgs = [] then none else some (msgs.map (fun m => { Msg := m, F := .foreign 0 }))
  GroupedByKey := fun h recs k =>
    let g := recs.filter (fun p => decide ((h p).NameFQDN = k.NameFQDN ∧ (h p).Type_ = k.Type_))
    if g = [] then none else some g
  recordsToNative := fun h g _ =>
    match g with
    | [] => []
    | p :: _ =>
      [{ Subname := if (h p).NameFQDN = "mail.example.com" then "mail" else "www",
         Records := some (g.map (fun q => (h q).Target)),
         TTL := (h p).TTL,
         Type_ := (h p).Type_ }]
  TrimDomainName := fun s _ =>
    if s = "example.com" then "@" else if s = "old.example.com" then "old" else s

/-! ## EnsureZoneExists and NewDeSec -/

/-- What a call of `EnsureZoneExists` did: the domains `createDomain` was called
with, in order, and the returned error (`none` is the nil error). -/
structure EnsureResult where
  created : List String
  ret : Option String
deriving DecidableEq, Repr

/-- The method `EnsureZoneExists(domain)`. The methods `searchDomainIndex` and
`createDomain` of the provider are parameters; `createDomain` gives the error it
returns. -/
def EnsureZoneExists (searchDomainIndex : String → Except String (Nat × Bool))
    (createDomain : String → Option String) (domain : String) : EnsureResult :=
  match searchDomainIndex domain with
  | .error err => { created := [], ret := some err }
  | .ok (_, ok) =>
    if ok then
      { created := [], ret := none }
    else
      { created := [domain], ret := createDomain domain }

/-- The white space of `unicode.IsSpace`, which `strings.TrimSpace` removes: the
Latin-1 spaces and the characters of the category Z. -/
def unicodeIsSpace (c : Char) : Bool :=
  c = '\t' || c = '\n' || c.val = 0x0B || c.val = 0x0C || c = '\r' || c = ' ' ||
  c.val = 0x85 || c.val = 0xA0 || c.val = 0x1680 ||
  (0x2000 ≤ c.val && c.val ≤ 0x200A) ||
  c.val = 0x2028 || c.val = 0x2029 || c.val = 0x202F || c.val = 0x205F || c.val = 0x3000

/-- The library function `strings.TrimSpace`: the string without its leading and
trailing white space. -/
def TrimSpace (s : String) : String :=
  String.mk ((s.data.dropWhile unicodeIsSpace).rdropWhile unicodeIsSpace)

/-- The fields of the struct `desecProvider` set by `NewDeSec`. -/
structure desecProvider where
  token : String
deriving DecidableEq, Repr

/-- The function `NewDeSec(m, metadata)`; `m key = none` is a key absent from the
map, for which `m[key]` is the empty string. The result is the provider or the
error. -/
def NewDeSec (m : String → Option String) (_metadata : String) :
    Except String desecProvider :=
  let c : desecProvider := { token := "" }
  let c := { c with token := TrimSpace ((m "auth-token").getD "") }
  if c.token = "" then
    .error "missing deSEC auth-token"
  else
    .ok c

end Desec

/-!
# The feature matrix generator

A shallow embedding of `build/generate/featureMatrix.go`. The registries of the
package `providers` are the fields of `Registry`. A Go string is a `String` where
only its text matters and a list of bytes where it is sliced.
-/

namespace Generate

open Desec

/-- The type `FeatureMap`, a map from feature names to notes; `none` is an absent
key, whose value is the nil note. -/
abbrev FeatureMap := String → Option DocumentationNote

/-- The empty map `FeatureMap{}`. -/
def FeatureMap.empty : FeatureMap := fun _ => none

/-- The assignment `featureMap[name] = note`. -/
def FeatureMap.set (featureMap : FeatureMap) (name : String) (note : DocumentationNote) :
    FeatureMap :=
  fun n => if n = name then some note else featureMap n

/-- The function `featureEmoji`. -/
def featureEmoji (featureMap : FeatureMap) (featureName : String) : String :=
  match featureMap featureName with
  | none => "❔"
  | some note =>
    if note.HasFeature then "✅"
    else if note.Unimplemented then "❔"
    else "❌"

/-- The method `SetSimple`. -/
def FeatureMap.SetSimple (featureMap : FeatureMap) (name : String) (unknownsAllowed : Bool)
    (f : Unit → Bool) : FeatureMap :=
  if f () then
    featureMap.set name { HasFeature := true, Unimplemented := false, Comment := "" }
  else if !unknownsAllowed then
    featureMap.set name { HasFeature := false, Unimplemented := false, Comment := "" }
  else
    featureMap

/-- The registries of the package `providers` read by the generator. A map that is
ranged over is the list of its entries in the order of enumeration; the flag of an
entry of `DNSProviderTypes` tells whether its `Initializer` is not nil, the flag of
an entry of `RegistrarTypes` whether its value is not nil. -/
structure Registry where
  Notes : String → Option (Capability → Option DocumentationNote)
  ProviderHasCapability : String → Capability → Bool
  DNSProviderTypes : List (String × Bool)
  RegistrarTypes : List (String × Bool)

/-- The value found in a registry for a name: false for an absent key. -/
def registered (types : List (String × Bool)) (providerName : String) : Bool :=
  (types.lookup providerName).getD false

/-! ## allProviderNames -/

/-- The comparison `a < b` of two Go strings, byte by byte; on UTF-8 text this is the
comparison character by character. -/
def lessChars : List Char → List Char → Bool
  | _, [] => false
  | [], _ :: _ => true
  | a :: s, b :: t => decide (a.val < b.val) || (decide (a = b) && lessChars s t)

/-- The comparison `a < b` of two Go strings. -/
def stringLess (a b : String) : Bool := lessChars a.data b.data

/-- The library function `sort.Strings`: the list in increasing order. -/
def sortStrings (l : List String) : List String :=
  l.insertionSort (fun a b => stringLess b a = false)

/-- The assignment `m[key] = true` on a `map[string]bool` given by its keys. -/
def keyInsert (keys : List String) (key : String) : List String :=
  if key ∈ keys then keys else keys ++ [key]

/-- One iteration of the loops of lines 284 to 295. -/
def allProviderNames.add (keys : List String) (entry : String × Bool) : List String :=
  if entry.1 = "NONE" then keys else keyInsert keys entry.1

/-- The function `allProviderNames`. The argument `enumerate` gives the order in
which `range` enumerates the keys of the local map `allProviderNames`. -/
def allProviderNames (reg : Registry) (enumerate : List String → List String) :
    List String :=
  let allProviderNames : List String := []
  let allProviderNames := reg.RegistrarTypes.foldl Generate.allProviderNames.add allProviderNames
  let allProviderNames := reg.DNSProviderTypes.foldl Generate.allProviderNames.add allProviderNames
  let allProviderNamesAsString :=
    (enumerate allProviderNames).foldl (fun names providerName => names ++ [providerName]) []
  sortStrings allProviderNamesAsString

/-! ## matrixData -/

/-- The constant `OfficialSupport`. -/
def matrixData.OfficialSupport : String := "Official Support"
/-- The constant `ProviderDNSProvider`. -/
def matrixData.ProviderDNSProvider : String := "DNS Provider"
/-- The constant `ProviderRegistrar`. -/
def matrixData.ProviderRegistrar : String := "Registrar"
/-- The constant `ProviderThreadSafe`. -/
def matrixData.ProviderThreadSafe : String :=
  "[Concurrency Verified](../concurrency-verified.md)"
/-- The constant `DomainModifierAlias`. -/
def matrixData.DomainModifierAlias : String :=
  "[`ALIAS`](../language-reference/domain-modifiers/ALIAS.md)"
/-- The constant `DomainModifierCaa`. -/
def matrixData.DomainModifierCaa : String :=
  "[`CAA`](../language-reference/domain-modifiers/CAA.md)"
/-- The constant `DomainModifierDnssec`. -/
def matrixData.DomainModifierDnssec : String :=
  "[`AUTODNSSEC`](../language-reference/domain-modifiers/AUTODNSSEC_ON.md)"
/-- The constant `DomainModifierHTTPS`. -/
def matrixData.DomainModifierHTTPS : String :=
  "[`HTTPS`](../language-reference/domain-modifiers/HTTPS.md)"
/-- The constant `DomainModifierLoc`. -/
def matrixData.DomainModifierLoc : String :=
  "[`LOC`](../language-reference/domain-modifiers/LOC.md)"
/-- The constant `DomainModifierNaptr`. -/
def matrixData.DomainModifierNaptr : String :=
  "[`NAPTR`](../language-reference/domain-modifiers/NAPTR.md)"
/-- The constant `DomainModifierPtr`. -/
def matrixData.DomainModifierPtr : String :=
  "[`PTR`](../language-reference/domain-modifiers/PTR.md)"
/-- The constant `DomainModifierSoa`. -/
def matrixData.DomainModifierSoa : String :=
  "[`SOA`](../language-reference/domain-modifiers/SOA.md)"
/-- The constant `DomainModifierSrv`. -/
def matrixData.DomainModifierSrv : String :=
  "[`SRV`](../language-reference/domain-modifiers/SRV.md)"
/-- The constant `DomainModifierSshfp`. -/
def matrixData.DomainModifierSshfp : String :=
  "[`SSHFP`](../language-reference/domain-modifiers/SSHFP.md)"
/-- The constant `DomainModifierSvcb`. -/
def matrixData.DomainModifierSvcb : String :=
  "[`SVCB`](../language-reference/domain-modifiers/SVCB.md)"
/-- The constant `DomainModifierTlsa`. -/
def matrixData.DomainModifierTlsa : String :=
  "[`TLSA`](../language-reference/domain-modifiers/TLSA.md)"
/-- The constant `DomainModifierDs`. -/
def matrixData.DomainModifierDs : String :=
  "[`DS`](../language-reference/domain-modifiers/DS.md)"
/-- The constant `DomainModifierDhcid`. -/
def matrixData.DomainModifierDhcid : String :=
  "[`DHCID`](../language-reference/domain-modifiers/DHCID.md)"
/-- The constant `DomainModifierDname`. -/
def matrixData.DomainModifierDname : String :=
  "[`DNAME`](../language-reference/domain-modifiers/DNAME.md)"
/-- The constant `DomainModifierDnskey`. -/
def matrixData.DomainModifierDnskey : String :=
  "[`DNSKEY`](../language-reference/domain-modifiers/DNSKEY.md)"
/-- The constant `DualHost`. -/
def matrixData.DualHost : String := "dual host"
/-- The constant `CreateDomains`. -/
def matrixData.CreateDomains : String := "create-domains"
/-- The constant `GetZones`. -/
def matrixData.GetZones : String := "get-zones"

/-- The closure `setCapability` of lines 137 to 150. -/
def matrixData.setCapability (reg : Registry) (providerName : String)
    (providerNotes : Capability → Option DocumentationNote) (featureMap : FeatureMap)
    (featureName : String) (capability : Capability) : FeatureMap :=
  match providerNotes capability with
  | some note => featureMap.set featureName note
  | none =>
    featureMap.SetSimple featureName true
      (fun _ => reg.ProviderHasCapability providerName capability)

/-- The closure `setDocumentation` of lines 152 to 164. -/
def matrixData.setDocumentation (providerNotes : Capability → Option DocumentationNote)
    (featureMap : FeatureMap) (featureName : String) (capability : Capability)
    (defaultNo : Bool) : FeatureMap :=
  match providerNotes capability with
  | some note => featureMap.set featureName note
  | none =>
    if defaultNo then
      featureMap.set featureName { HasFeature := false, Unimplemented := false, Comment := "" }
    else
      featureMap

/-- The notes `providerNotes` of lines 132 to 135: those of the registry, or none
at all. -/
def matrixData.providerNotes (reg : Registry) (providerName : String) :
    Capability → Option DocumentationNote :=
  match reg.Notes providerName with
  | none => fun _ => none
  | some notes => notes

/-- The body of the loop of `matrixData`, lines 131 to 262: the feature map of one
provider. -/
def matrixData.featureMap (reg : Registry) (providerName : String) : FeatureMap :=
  let featureMap := FeatureMap.empty
  let providerNotes := matrixData.providerNotes reg providerName
  let setCapability := matrixData.setCapability reg providerName providerNotes
  let setDocumentation := matrixData.setDocumentation providerNotes
  let featureMap := setDocumentation featureMap matrixData.OfficialSupport
    .DocOfficiallySupported true
  let featureMap := featureMap.SetSimple matrixData.ProviderDNSProvider false
    (fun _ => registered reg.DNSProviderTypes providerName)
  let featureMap := featureMap.SetSimple matrixData.ProviderRegistrar false
    (fun _ => registered reg.RegistrarTypes providerName)
  let featureMap := setCapability featureMap matrixData.ProviderThreadSafe .CanConcur
  let featureMap := setCapability featureMap matrixData.DomainModifierAlias .CanUseAlias
  let featureMap := setCapability featureMap matrixData.DomainModifierDnssec .CanAutoDNSSEC
  let featureMap := setCapability featureMap matrixData.DomainModifierCaa .CanUseCAA
  let featureMap := setCapability featureMap matrixData.DomainModifierDhcid .CanUseDHCID
  let featureMap := setCapability featureMap matrixData.DomainModifierDname .CanUseDNAME
  let featureMap := setCapability featureMap matrixData.DomainModifierDs .CanUseDS
  let featureMap := setCapability featureMap matrixData.DomainModifierDnskey .CanUseDNSKEY
  let featureMap := setCapability featureMap matrixData.DomainModifierHTTPS .CanUseHTTPS
  let featureMap := setCapability featureMap matrixData.DomainModifierLoc .CanUseLOC
  let featureMap := setCapability featureMap matrixData.DomainModifierNaptr .CanUseNAPTR
  let featureMap := setCapability featureMap matrixData.DomainModifierPtr .CanUsePTR
  let featureMap := setCapability featureMap matrixData.DomainModifierSoa .CanUseSOA
  let featureMap := setCapability featureMap matrixData.DomainModifierSrv .CanUseSRV
  let featureMap := setCapability featureMap matrixData.DomainModifierSshfp .CanUseSSHFP
  let featureMap := setCapability featureMap matrixData.DomainModifierSvcb .CanUseSVCB
  let featureMap := setCapability featureMap matrixData.DomainModifierTlsa .CanUseTLSA
  let featureMap := setCapability featureMap matrixData.GetZones .CanGetZones
  let featureMap := setDocumentation featureMap matrixData.CreateDomains
    .DocCreateDomains true
  let featureMap := setDocumentation featureMap matrixData.DualHost .DocDualHost false
  featureMap

/-- The struct `FeatureMatrix`; `Providers name = none` is an absent key. -/
structure FeatureMatrix where
  Features : List String
  Providers : String → Option FeatureMap

/-- The function `matrixData`; `enumerate` is the order of enumeration used by
`allProviderNames`. -/
def matrixData (reg : Registry) (enumerate : List String → List String) : FeatureMatrix :=
  let matrix : FeatureMatrix :=
    { Providers := fun _ => none
      Features :=
        [ matrixData.OfficialSupport, matrixData.ProviderDNSProvider,
          matrixData.ProviderRegistrar, matrixData.ProviderThreadSafe,
          matrixData.DomainModifierAlias, matrixData.DomainModifierCaa,
          matrixData.DomainModifierDnssec, matrixData.DomainModifierHTTPS,
          matrixData.DomainModifierLoc, matrixData.DomainModifierNaptr,
          matrixData.DomainModifierPtr, matrixData.DomainModifierSoa,
          matrixData.DomainModifierSrv, matrixData.DomainModifierSshfp,
          matrixData.DomainModifierSvcb, matrixData.DomainModifierTlsa,
          matrixData.DomainModifierDs, matrixData.DomainModifierDhcid,
          matrixData.DomainModifierDname, matrixData.DomainModifierDnskey,
          matrixData.DualHost, matrixData.CreateDomains, matrixData.GetZones ] }
  (allProviderNames reg enumerate).foldl
    (fun matrix providerName =>
      { matrix with
        Providers := fun n =>
          if n = providerName then some (matrixData.featureMap reg providerName)
          else matrix.Providers n })
    matrix

/-- The calls of `setCapability` in `matrixData`, lines 181 to 252: the name of the
feature and the capability of each. -/
def matrixData.capabilityCalls : List (String × Capability) :=
  [ (matrixData.ProviderThreadSafe, .CanConcur),
    (matrixData.DomainModifierAlias, .CanUseAlias),
    (matrixData.DomainModifierDnssec, .CanAutoDNSSEC),
    (matrixData.DomainModifierCaa, .CanUseCAA),
    (matrixData.DomainModifierDhcid, .CanUseDHCID),
    (matrixData.DomainModifierDname, .CanUseDNAME),
    (matrixData.DomainModifierDs, .CanUseDS),
    (matrixData.DomainModifierDnskey, .CanUseDNSKEY),
    (matrixData.DomainModifierHTTPS, .CanUseHTTPS),
    (matrixData.DomainModifierLoc, .CanUseLOC),
    (matrixData.DomainModifierNaptr, .CanUseNAPTR),
    (matrixData.DomainModifierPtr, .CanUsePTR),
    (matrixData.DomainModifierSoa, .CanUseSOA),
    (matrixData.DomainModifierSrv, .CanUseSRV),
    (matrixData.DomainModifierSshfp, .CanUseSSHFP),
    (matrixData.DomainModifierSvcb, .CanUseSVCB),
    (matrixData.DomainModifierTlsa, .CanUseTLSA),
    (matrixData.GetZones, .CanGetZones) ]

/-- The calls of `setDocumentation` in `matrixData`, lines 166 to 170 and 253 to
262: the name of the feature, the capability and the flag `defaultNo` of each. -/
def matrixData.documentationCalls : List (String × Capability × Bool) :=
  [ (matrixData.OfficialSupport, .DocOfficiallySupported, true),
    (matrixData.CreateDomains, .DocCreateDomains, true),
    (matrixData.DualHost, .DocDualHost, false) ]

/-- The rows `tableData` built by `markdownTable`, lines 35 to 45, for the provider
names `names`; the library function `strings.ToLower` is a parameter. A provider
absent from `matrix.Providers` has the nil feature map. -/
def markdownTable.tableData (ToLower : String → String) (matrix : FeatureMatrix)
    (names : List String) : List (List String) :=
  names.map (fun providerName =>
    let featureMap := (matrix.Providers providerName).getD FeatureMap.empty
    ("[`" ++ providerName ++ "`](" ++ ToLower providerName ++ ".md)") ::
      matrix.Features.map (fun featureName => featureEmoji featureMap featureName))

/-- A sample registry: the deSEC provider as registered by its `init`, with the
notes of `features` and the capabilities that these notes assert, and a registrar. -/
def sampleRegistry : Registry where
  Notes := fun name => if name = "DESEC" then some featuresNote else none
  ProviderHasCapability := fun name capability =>
    decide (name = "DESEC") && ((featuresNote capability).map (fun n => n.HasFeature)).getD false
  DNSProviderTypes := [("NONE", true), ("DESEC", true), ("CLOUDFLAREAPI", true)]
  RegistrarTypes := [("NONE", true), ("NAMEDOTCOM", true), ("CLOUDFLAREAPI", true)]

/-! ## replaceInlineContent -/

/-- The bytes of a Go string or of a `[]byte`. -/
abbrev Bytes := List UInt8

/-- The test `strings.HasPrefix(s, substr)`: the bytes `s` start with `substr`. -/
def startsWith : Bytes → Bytes → Bool
  | _, [] => true
  | [], _ :: _ => false
  | a :: s, b :: t => decide (a = b) && startsWith s t

/-- The library function `strings.Index`: the index of the first instance of `substr`
in `s`, or -1 if there is none. -/
def Index : Bytes → Bytes → Int
  | [], substr => if startsWith [] substr then 0 else -1
  | c :: s, substr =>
    if startsWith (c :: s) substr then 0
    else
      let i := Index s substr
      if i < 0 then -1 else i + 1

/-- The function `replaceInlineContent`: the bytes it writes to `file`, or the panic
it ends with. The functions `os.ReadFile` and `os.WriteFile` are parameters,
`WriteFile` giving the error it returns; a slice expression with an index out of
range panics. -/
def replaceInlineContent (ReadFile : String → Except String Bytes)
    (WriteFile : String → Bytes → Option String) (file : String)
    (startMarker endMarker newContent : Bytes) : Except Err Bytes :=
  match ReadFile file with
  | .error err => .error (.panic err)
  | .ok contentBytes =>
    let content := contentBytes
    let start := Index content startMarker
    let end_ := Index content endMarker
    let newContentString := startMarker ++ [10] ++ newContent ++ endMarker
    let newContentBytes := newContentString
    let contentBytes := content
    let low := end_ + (endMarker.length : Int)
    if start < 0 ∨ (contentBytes.length : Int) < start then
      .error (.panic "slice bounds out of range")
    else if low < 0 ∨ (contentBytes.length : Int) < low then
      .error (.panic "slice bounds out of range")
    else
      let contentBytes :=
        contentBytes.take start.toNat ++ (newContentBytes ++ contentBytes.drop low.toNat)
      match WriteFile file contentBytes with
      | some err => .error (.panic err)
      | none => .ok contentBytes

/-- The bytes of an ASCII text, for samples. -/
def bytesOf (text : String) : Bytes := text.data.map (fun c => c.toNat.toUInt8)

end Generate

namespace Desec


/-! ## The loop of PrepDesiredRecords -/

theorem ttlWarning_ne_aliasWarning (minTTL : Nat) (rec : RecordConfig) :
    ttlWarning minTTL rec ≠ aliasWarning := by
  intro h
  have h2 := congrArg (fun s => s.data.head?) h
  simp only [ttlWarning, String.data_append, aliasWarning] at h2
  revert h2
  generalize (toString minTTL) = a
  generalize (toString rec.TTL) = b
  simp [String.data_append]

theorem firstOccurrences_filter (P : Ptr → Bool) (l : List Ptr) :
    firstOccurrences (l.filter P) = (firstOccurrences l).filter P := by
  induction l with
  | nil => rfl
  | cons p t ih =>
    by_cases hp : P p = true
    · simp only [List.filter_cons, hp, if_true, firstOccurrences, ih, List.filter_filter]
      congr 1
      apply List.filter_congr
      intro x _
      exact Bool.and_comm _ _
    · simp only [List.filter_cons, hp, firstOccurrences, List.filter_filter,
        Bool.false_eq_true, if_false]
      rw [ih]
      apply List.filter_congr
      intro x _
      by_cases hx : x = p
      · subst hx; simp [hp]
      · simp [hx]

theorem setTTL_type (h : Heap) (p : Ptr) (ttl : Nat) (q : Ptr) :
    (h.setTTL p ttl q).Type_ = (h q).Type_ := by
  unfold Heap.setTTL; split <;> rfl

theorem step_type (minTTL : Nat) (st : PrepState) (p q : Ptr) :
    ((PrepDesiredRecords.step minTTL st p).heap q).Type_ = (st.heap q).Type_ := by
  unfold PrepDesiredRecords.step
  split
  · rfl
  · split
    · exact setTTL_type _ _ _ _
    · rfl

theorem fold_keep (minTTL : Nat) (l : List Ptr) (st : PrepState) :
    (l.foldl (PrepDesiredRecords.step minTTL) st).recordsToKeep =
      st.recordsToKeep ++ l.filter (fun p => decide ((st.heap p).Type_ ≠ "ALIAS")) := by
  induction l generalizing st with
  | nil => simp
  | cons p t ih =>
    rw [List.foldl_cons, ih]
    have hty : (fun q => decide (((PrepDesiredRecords.step minTTL st p).heap q).Type_ ≠ "ALIAS"))
        = (fun q => decide ((st.heap q).Type_ ≠ "ALIAS")) := by
      funext q; rw [step_type]
    rw [hty]
    by_cases hp : (st.heap p).Type_ = "ALIAS"
    · simp [PrepDesiredRecords.step, hp]
    · by_cases ht : (st.heap p).TTL < minTTL <;>
        simp [PrepDesiredRecords.step, hp, ht]

theorem fold_heap (minTTL : Nat) (l : List Ptr) (st : PrepState) (q : Ptr) :
    (l.foldl (PrepDesiredRecords.step minTTL) st).heap q =
      if q ∈ l ∧ (st.heap q).Type_ ≠ "ALIAS" ∧ (st.heap q).TTL < minTTL
      then { st.heap q with TTL := minTTL } else st.heap q := by
  induction l generalizing st with
  | nil => simp
  | cons p t ih =>
    rw [List.foldl_cons, ih]
    by_cases hp : (st.heap p).Type_ = "ALIAS"
    · have hs : (PrepDesiredRecords.step minTTL st p).heap = st.heap := by
        simp [PrepDesiredRecords.step, hp]
      rw [hs]
      by_cases hq : q = p
      · subst hq; simp [hp]
      · simp [hq]
    · by_cases ht : (st.heap p).TTL < minTTL
      · have hs : (PrepDesiredRecords.step minTTL st p).heap = st.heap.setTTL p minTTL := by
          simp [PrepDesiredRecords.step, hp, ht]
        rw [hs]
        by_cases hq : q = p
        · subst hq; simp [Heap.setTTL, hp, ht]
        · simp [Heap.setTTL, hq]
      · have hs : (PrepDesiredRecords.step minTTL st p).heap = st.heap := by
          simp [PrepDesiredRecords.step, hp, ht]
        rw [hs]
        by_cases hq : q = p
        · subst hq; simp [ht]
        · simp [hq]

theorem fold_alias_count (minTTL : Nat) (l : List Ptr) (st : PrepState) :
    (l.foldl (PrepDesiredRecords.step minTTL) st).log.count aliasWarning =
      st.log.count aliasWarning +
        l.countP (fun p => decide ((st.heap p).Type_ = "ALIAS")) := by
  induction l generalizing st with
  | nil => simp
  | cons p t ih =>
    rw [List.foldl_cons, ih]
    have hty : (fun q => decide (((PrepDesiredRecords.step minTTL st p).heap q).Type_ = "ALIAS"))
        = (fun q => decide ((st.heap q).Type_ = "ALIAS")) := by
      funext q; rw [step_type]
    rw [hty]
    by_cases hp : (st.heap p).Type_ = "ALIAS"
    · simp [PrepDesiredRecords.step, hp, List.countP_cons]
      omega
    · have hne := ttlWarning_ne_aliasWarning minTTL (st.heap p)
      by_cases ht : (st.heap p).TTL < minTTL <;> by_cases hn : (st.heap p).Type_ = "NS" <;>
        simp [PrepDesiredRecords.step, hp, ht, hn, List.countP_cons, List.count_cons, hne]

theorem mem_firstOccurrences (l : List Ptr) (q : Ptr) :
    q ∈ firstOccurrences l ↔ q ∈ l := by
  induction l with
  | nil => simp [firstOccurrences]
  | cons p t ih =>
    simp only [firstOccurrences, List.mem_cons, List.mem_filter, ih, decide_eq_true_eq]
    by_cases hq : q = p <;> simp [hq]

theorem fold_ttl_log (minTTL : Nat) (l : List Ptr) (st : PrepState) :
    (l.foldl (PrepDesiredRecords.step minTTL) st).log.filter
        (fun w => decide (w ≠ aliasWarning)) =
      st.log.filter (fun w => decide (w ≠ aliasWarning)) ++
        (firstOccurrences (l.filter (needsWarning minTTL st.heap))).map
          (fun p => ttlWarning minTTL (st.heap p)) := by
  induction l generalizing st with
  | nil => simp [firstOccurrences]
  | cons p t ih =>
    rw [List.foldl_cons, ih]
    by_cases hp : (st.heap p).Type_ = "ALIAS"
    · have hs : PrepDesiredRecords.step minTTL st p =
          { st with log := st.log ++ [aliasWarning] } := by
        simp [PrepDesiredRecords.step, hp]
      rw [hs]
      simp [needsWarning, hp]
    · by_cases ht : (st.heap p).TTL < minTTL
      · by_cases hn : (st.heap p).Type_ = "NS"
        · have hs : PrepDesiredRecords.step minTTL st p =
              { st with heap := st.heap.setTTL p minTTL,
                        recordsToKeep := st.recordsToKeep ++ [p] } := by
            simp [PrepDesiredRecords.step, hp, ht, hn]
          rw [hs]
          have hnp : needsWarning minTTL st.heap p = false := by simp [needsWarning, hn]
          have hf : needsWarning minTTL (st.heap.setTTL p minTTL) = needsWarning minTTL st.heap := by
            funext q
            by_cases hq : q = p
            · subst hq; simp [needsWarning, Heap.setTTL, hn]
            · simp [needsWarning, Heap.setTTL, hq]
          simp only [hf, List.filter_cons, hnp, Bool.false_eq_true, if_false]
          have key : (firstOccurrences (t.filter (needsWarning minTTL st.heap))).map
                (fun q => ttlWarning minTTL (st.heap.setTTL p minTTL q)) =
              (firstOccurrences (t.filter (needsWarning minTTL st.heap))).map
                (fun q => ttlWarning minTTL (st.heap q)) := by
            apply List.map_congr_left
            intro q hq
            rw [mem_firstOccurrences, List.mem_filter] at hq
            have hqp : q ≠ p := by
              intro e; rw [e, hnp] at hq; exact absurd hq.2 (by simp)
            simp [Heap.setTTL, hqp]
          rw [key]
        · have hs : PrepDesiredRecords.step minTTL st p =
              { heap := st.heap.setTTL p minTTL,
                recordsToKeep := st.recordsToKeep ++ [p],
                log := st.log ++ [ttlWarning minTTL (st.heap p)] } := by
            simp [PrepDesiredRecords.step, hp, ht, hn]
          rw [hs]
          have hne := ttlWarning_ne_aliasWarning minTTL (st.heap p)
          have hnp : needsWarning minTTL st.heap p = true := by simp [needsWarning, hn, hp, ht]
          have hf : needsWarning minTTL (st.heap.setTTL p minTTL) =
              fun q => needsWarning minTTL st.heap q && decide (q ≠ p) := by
            funext q
            by_cases hq : q = p
            · subst hq; simp [needsWarning, Heap.setTTL]
            · simp [needsWarning, Heap.setTTL, hq]
          simp only [hf, List.filter_cons, hnp, if_true, firstOccurrences, List.filter_append,
            List.map_cons, hne, ne_eq, not_false_eq_true, decide_True, List.filter_nil,
            List.append_assoc, List.singleton_append]
          have key : (firstOccurrences (t.filter
                (fun q => needsWarning minTTL st.heap q && decide (q ≠ p)))).map
                (fun q => ttlWarning minTTL (st.heap.setTTL p minTTL q)) =
              ((firstOccurrences (t.filter (needsWarning minTTL st.heap))).filter
                (fun q => decide (q ≠ p))).map (fun q => ttlWarning minTTL (st.heap q)) := by
            have hff : t.filter (fun q => needsWarning minTTL st.heap q && decide (q ≠ p)) =
                (t.filter (needsWarning minTTL st.heap)).filter (fun q => decide (q ≠ p)) := by
              rw [List.filter_filter]
              apply List.filter_congr
              intro x _
              exact Bool.and_comm _ _
            rw [hff, firstOccurrences_filter]
            apply List.map_congr_left
            intro q hq
            rw [List.mem_filter] at hq
            have hqp : q ≠ p := by simpa using hq.2
            simp [Heap.setTTL, hqp]
          rw [key]
      · have hs : PrepDesiredRecords.step minTTL st p =
            { st with recordsToKeep := st.recordsToKeep ++ [p] } := by
          simp [PrepDesiredRecords.step, hp, ht]
        rw [hs]
        simp [needsWarning, ht]

/-! ## PrepDesiredRecords as a whole -/

theorem prep_records (heap : Heap) (dc : DomainConfig) (minTTL : Nat) :
    (PrepDesiredRecords heap dc minTTL).dc.Records =
      dc.Records.filter (fun p => decide ((heap p).Type_ ≠ "ALIAS")) := by
  simp [PrepDesiredRecords, fold_keep]

theorem prep_heap (heap : Heap) (dc : DomainConfig) (minTTL : Nat) (q : Ptr) :
    (PrepDesiredRecords heap dc minTTL).heap q =
      if q ∈ dc.Records ∧ (heap q).Type_ ≠ "ALIAS" ∧ (heap q).TTL < minTTL
      then { heap q with TTL := minTTL } else heap q := by
  simp only [PrepDesiredRecords, fold_heap]

theorem prep_type (heap : Heap) (dc : DomainConfig) (minTTL : Nat) (q : Ptr) :
    ((PrepDesiredRecords heap dc minTTL).heap q).Type_ = (heap q).Type_ := by
  rw [prep_heap]; split <;> rfl

theorem prep_alias_count (heap : Heap) (dc : DomainConfig) (minTTL : Nat) :
    (PrepDesiredRecords heap dc minTTL).log.count aliasWarning =
      dc.Records.countP (fun p => decide ((heap p).Type_ = "ALIAS")) := by
  simp [PrepDesiredRecords, fold_alias_count]

theorem prep_ttl_log (heap : Heap) (dc : DomainConfig) (minTTL : Nat) :
    (PrepDesiredRecords heap dc minTTL).log.filter (fun w => decide (w ≠ aliasWarning)) =
      (firstOccurrences (dc.Records.filter (needsWarning minTTL heap))).map
        (fun p => ttlWarning minTTL (heap p)) := by
  unfold PrepDesiredRecords
  simp only [fold_ttl_log, List.filter_nil, List.nil_append]

/-! ## Claims on PrepDesiredRecords -/

/-- C1: after `PrepDesiredRecords` no record of `dc.Records` has type ALIAS, every
input record of another type is still present (as often as before), and the alias
warning has been printed once per ALIAS entry of the input; a zone whose only
desired record is an ALIAS ends with no record and that one warning. -/
theorem PrepDesiredRecords_drops_alias (heap : Heap) (dc : DomainConfig) (minTTL : Nat) :
    (∀ p ∈ (PrepDesiredRecords heap dc minTTL).dc.Records,
        ((PrepDesiredRecords heap dc minTTL).heap p).Type_ ≠ "ALIAS") ∧
    (∀ p ∈ dc.Records, (heap p).Type_ ≠ "ALIAS" →
        p ∈ (PrepDesiredRecords heap dc minTTL).dc.Records ∧
        (PrepDesiredRecords heap dc minTTL).dc.Records.count p = dc.Records.count p) ∧
    (PrepDesiredRecords heap dc minTTL).log.count aliasWarning =
        dc.Records.countP (fun p => decide ((heap p).Type_ = "ALIAS")) ∧
    (∀ p, (heap p).Type_ = "ALIAS" → dc.Records = [p] →
        (PrepDesiredRecords heap dc minTTL).dc.Records = [] ∧
        (PrepDesiredRecords heap dc minTTL).log = [aliasWarning]) := by
  refine ⟨?_, ?_, prep_alias_count heap dc minTTL, ?_⟩
  · intro p hp
    rw [prep_records, List.mem_filter] at hp
    rw [prep_type]
    simpa using hp.2
  · intro p hp hty
    rw [prep_records]
    refine ⟨List.mem_filter.mpr ⟨hp, by simpa using hty⟩, ?_⟩
    rw [List.count_filter]
    simpa using hty
  · intro p hty hrec
    refine ⟨?_, ?_⟩
    · rw [prep_records, hrec]; simp [hty]
    · simp [PrepDesiredRecords, hrec, PrepDesiredRecords.step, hty]

/-- The scenario of C1: the zone `example.com` whose only desired record is an
ALIAS ends with an empty record list and one warning. -/
theorem PrepDesiredRecords_drops_alias_witness :
    (PrepDesiredRecords sampleHeap { Name := "example.com", Records := [1] } 3600).dc.Records = [] ∧
    (PrepDesiredRecords sampleHeap { Name := "example.com", Records := [1] } 3600).log =
      ["deSEC does not support alias records\n"] :=
  (PrepDesiredRecords_drops_alias sampleHeap { Name := "example.com", Records := [1] } 3600).2.2.2
    1 (by decide) rfl

theorem log_cases (heap : Heap) (dc : DomainConfig) (minTTL : Nat) (w : String)
    (hw : w ∈ (PrepDesiredRecords heap dc minTTL).log) :
    w = aliasWarning ∨ ∃ p ∈ dc.Records, (heap p).Type_ ≠ "ALIAS" ∧ (heap p).Type_ ≠ "NS" ∧
      (heap p).TTL < minTTL ∧ w = ttlWarning minTTL (heap p) := by
  by_cases ha : w = aliasWarning
  · exact Or.inl ha
  · right
    have hm : w ∈ (PrepDesiredRecords heap dc minTTL).log.filter
        (fun w => decide (w ≠ aliasWarning)) :=
      List.mem_filter.mpr ⟨hw, by simpa using ha⟩
    rw [prep_ttl_log, List.mem_map] at hm
    obtain ⟨p, hp, hpw⟩ := hm
    rw [mem_firstOccurrences, List.mem_filter] at hp
    have hn : (heap p).Type_ ≠ "ALIAS" ∧ (heap p).Type_ ≠ "NS" ∧ (heap p).TTL < minTTL := by
      simpa [needsWarning] using hp.2
    exact ⟨p, hp.1, hn.1, hn.2.1, hn.2.2, hpw.symm⟩

theorem warned_of_needsWarning (heap : Heap) (dc : DomainConfig) (minTTL : Nat) (p : Ptr)
    (hp : p ∈ dc.Records) (hn : needsWarning minTTL heap p = true) :
    ttlWarning minTTL (heap p) ∈ (PrepDesiredRecords heap dc minTTL).log := by
  have hm : ttlWarning minTTL (heap p) ∈ (PrepDesiredRecords heap dc minTTL).log.filter
      (fun w => decide (w ≠ aliasWarning)) := by
    rw [prep_ttl_log, List.mem_map]
    exact ⟨p, (mem_firstOccurrences _ _).mpr (List.mem_filter.mpr ⟨hp, hn⟩), rfl⟩
  exact (List.mem_filter.mp hm).1

/-- C2: `PrepDesiredRecords` sets the TTL of every kept record that is not an NS
record and whose TTL was below `minTTL` to exactly `minTTL`; a kept record whose TTL
was at least `minTTL` keeps it; and the warnings other than the alias warning are
exactly one per such raised record object, in the order of their first occurrence,
each naming the record, its type, its old TTL and `minTTL` (so a record that is not
raised gets none). -/
theorem PrepDesiredRecords_raises_ttl (heap : Heap) (dc : DomainConfig) (minTTL : Nat) :
    (∀ p ∈ (PrepDesiredRecords heap dc minTTL).dc.Records,
        (heap p).Type_ ≠ "NS" → (heap p).TTL < minTTL →
        ((PrepDesiredRecords heap dc minTTL).heap p).TTL = minTTL) ∧
    (∀ p ∈ (PrepDesiredRecords heap dc minTTL).dc.Records, minTTL ≤ (heap p).TTL →
        ((PrepDesiredRecords heap dc minTTL).heap p).TTL = (heap p).TTL) ∧
    (PrepDesiredRecords heap dc minTTL).log.filter (fun w => decide (w ≠ aliasWarning)) =
      (firstOccurrences (dc.Records.filter (fun p => decide
          ((heap p).Type_ ≠ "ALIAS" ∧ (heap p).Type_ ≠ "NS" ∧ (heap p).TTL < minTTL)))).map
        (fun p => "Please contact support@desec.io if you need TTLs < " ++ toString minTTL ++
          ". Setting TTL of " ++ (heap p).NameFQDN ++ " type " ++ (heap p).Type_ ++
          " from " ++ toString (heap p).TTL ++ " to " ++ toString minTTL ++ "\n") := by
  refine ⟨?_, ?_, prep_ttl_log heap dc minTTL⟩
  · intro p hp _ hlt
    rw [prep_records, List.mem_filter] at hp
    have hty : (heap p).Type_ ≠ "ALIAS" := by simpa using hp.2
    rw [prep_heap, if_pos ⟨hp.1, hty, hlt⟩]
  · intro p _ hge
    rw [prep_heap, if_neg (fun h => absurd h.2.2 (Nat.not_lt.mpr hge))]

/-- The scenario of C2: `www.example.com A` with TTL 60 and `minTTL` 300 ends with
TTL 300 and one warning. -/
theorem PrepDesiredRecords_raises_ttl_witness :
    ((PrepDesiredRecords sampleHeap { Name := "example.com", Records := [0] } 300).heap 0).TTL
      = 300 ∧
    (PrepDesiredRecords sampleHeap { Name := "example.com", Records := [0] } 300).log =
      ["Please contact support@desec.io if you need TTLs < 300. Setting TTL of www.example.com type A from 60 to 300\n"] :=
  ⟨(PrepDesiredRecords_raises_ttl sampleHeap { Name := "example.com", Records := [0] } 300).1
      0 (by decide) (by decide) (by decide), by decide⟩

/-- C3 as stated fails: the NS record of the sample, with TTL 60 below `minTTL` 300,
has TTL 300 after `PrepDesiredRecords`, and no diagnostic records the raise. -/
theorem PrepDesiredRecords_ns_counterexample :
    (sampleHeap 2).Type_ = "NS" ∧ (sampleHeap 2).TTL = 60 ∧
    ((PrepDesiredRecords sampleHeap { Name := "example.com", Records := [2] } 300).heap 2).TTL
      = 300 ∧
    (PrepDesiredRecords sampleHeap { Name := "example.com", Records := [2] } 300).log = [] := by
  decide

/-- C3, amended: NS records are exempt from the diagnostic, not from the adjustment.
A kept NS record whose TTL is below `minTTL` has TTL `minTTL` afterwards; every
warning printed is the alias warning or the TTL warning of a record that is neither
ALIAS nor NS; and every TTL that changed on a record that is not NS is recorded by
its TTL warning. -/
theorem PrepDesiredRecords_ns_raised_silently (heap : Heap) (dc : DomainConfig)
    (minTTL : Nat) :
    (∀ p ∈ dc.Records, (heap p).Type_ = "NS" → (heap p).TTL < minTTL →
        ((PrepDesiredRecords heap dc minTTL).heap p).TTL = minTTL) ∧
    (∀ w ∈ (PrepDesiredRecords heap dc minTTL).log,
        w = aliasWarning ∨ ∃ p ∈ dc.Records, (heap p).Type_ ≠ "ALIAS" ∧
          (heap p).Type_ ≠ "NS" ∧ (heap p).TTL < minTTL ∧ w = ttlWarning minTTL (heap p)) ∧
    (∀ p, ((PrepDesiredRecords heap dc minTTL).heap p).TTL ≠ (heap p).TTL →
        (heap p).Type_ ≠ "NS" →
        ttlWarning minTTL (heap p) ∈ (PrepDesiredRecords heap dc minTTL).log) := by
  refine ⟨?_, log_cases heap dc minTTL, ?_⟩
  · intro p hp hns hlt
    have hty : (heap p).Type_ ≠ "ALIAS" := by rw [hns]; decide
    rw [prep_heap, if_pos ⟨hp, hty, hlt⟩]
  · intro p hne hns
    rw [prep_heap] at hne
    by_cases hc : p ∈ dc.Records ∧ (heap p).Type_ ≠ "ALIAS" ∧ (heap p).TTL < minTTL
    · apply warned_of_needsWarning heap dc minTTL p hc.1
      simp [needsWarning, hc.2.1, hc.2.2, hns]
    · rw [if_neg hc] at hne
      exact absurd rfl hne

/-- C4 as stated fails: `CanUseLOC` is declared Unimplemented in `features`, yet the
LOC record of the sample is kept by `PrepDesiredRecords`. -/
theorem PrepDesiredRecords_loc_counterexample :
    featuresNote .CanUseLOC = some (Unimplemented "") ∧
    (sampleHeap 3).Type_ = "LOC" ∧
    (PrepDesiredRecords sampleHeap { Name := "example.com", Records := [3] } 3600).dc.Records
      = [3] := by
  decide

/-! ## The loop over keysToUpdate -/

theorem deleteMsg_tail (env : Collaborators) (punycodeName : String) (label : RecordKey)
    (msgs : List String) (n : Nat) (st : LoopState) :
    (msgs.enumFrom (n + 1)).foldl
        (fun s im => GetZoneRecordsCorrections.deleteMsg env punycodeName label s im.1 im.2) st =
      { st with buf := st.buf ++ msgs } := by
  induction msgs generalizing n st with
  | nil => simp
  | cons m t ih =>
    rw [List.enumFrom_cons, List.foldl_cons, ih]
    simp [GetZoneRecordsCorrections.deleteMsg]

theorem deleteMsg_fold (env : Collaborators) (punycodeName : String) (label : RecordKey)
    (msgs : List String) (st : LoopState) :
    msgs.enum.foldl
        (fun s im => GetZoneRecordsCorrections.deleteMsg env punycodeName label s im.1 im.2) st =
      if msgs = [] then st
      else { rrs := st.rrs ++ [GetZoneRecordsCorrections.deleteRR env punycodeName label],
             buf := st.buf ++ msgs } := by
  cases msgs with
  | nil => simp
  | cons m t =>
    rw [List.enum_cons, List.foldl_cons, deleteMsg_tail]
    simp [GetZoneRecordsCorrections.deleteMsg]

theorem updateMsg_tail (ns : List resourceRecord) (msgs : List String) (n : Nat)
    (st : LoopState) :
    (msgs.enumFrom (n + 1)).foldlM
        (fun s im => GetZoneRecordsCorrections.updateMsg ns s im.1 im.2) st =
      .ok { st with buf := st.buf ++ msgs } := by
  induction msgs generalizing n st with
  | nil => simp [pure, Except.pure]
  | cons m t ih =>
    have h1 : GetZoneRecordsCorrections.updateMsg ns st (n + 1) m =
        .ok { st with buf := st.buf ++ [m] } := by
      simp [GetZoneRecordsCorrections.updateMsg]
    rw [List.enumFrom_cons, List.foldlM_cons]
    dsimp only
    rw [h1]
    show List.foldlM _ _ _ = _
    rw [ih]
    simp

theorem updateMsg_fold (ns : List resourceRecord) (msgs : List String) (st : LoopState) :
    msgs.enum.foldlM (fun s im => GetZoneRecordsCorrections.updateMsg ns s im.1 im.2) st =
      if msgs = [] then .ok st
      else match ns with
        | [] => .error (.panic "index out of range [0] with length 0")
        | r :: _ => .ok { rrs := st.rrs ++ [r], buf := st.buf ++ msgs } := by
  cases msgs with
  | nil => simp [pure, Except.pure]
  | cons m t =>
    rw [List.enum_cons, List.foldlM_cons]
    cases ns with
    | nil => simp [GetZoneRecordsCorrections.updateMsg, bind, Except.bind]
    | cons r rest =>
      have h1 : GetZoneRecordsCorrections.updateMsg (r :: rest) st 0 m =
          .ok { rrs := st.rrs ++ [r], buf := st.buf ++ [m] } := by
        simp [GetZoneRecordsCorrections.updateMsg]
      dsimp only
      rw [h1]
      show List.foldlM _ _ _ = _
      rw [updateMsg_tail]
      simp

theorem key_of_keyOk (env : Collaborators) (heap : Heap)
    (desiredRecords : RecordKey → Option (List Ptr)) (punycodeName : String)
    (st : LoopState) (entry : RecordKey × List String)
    (hok : GetZoneRecordsCorrections.keyOk env heap desiredRecords punycodeName entry) :
    GetZoneRecordsCorrections.key env heap desiredRecords punycodeName st entry =
      .ok { rrs := st.rrs ++
              (GetZoneRecordsCorrections.payloadOf env heap desiredRecords punycodeName
                entry).toList,
            buf := st.buf ++ entry.2 } := by
  unfold GetZoneRecordsCorrections.key GetZoneRecordsCorrections.payloadOf
    GetZoneRecordsCorrections.rrOf
  cases hd : desiredRecords entry.1 with
  | none =>
    simp only [deleteMsg_fold]
    by_cases hm : entry.2 = []
    · simp [hm]
    · simp [hm]
  | some group =>
    obtain ⟨hle, hone⟩ := hok group hd
    simp only [updateMsg_fold, gt_iff_lt, Nat.not_lt.mpr hle, if_false]
    by_cases hm : entry.2 = []
    · simp [hm]
    · have h1 := hone hm
      match hns : env.recordsToNative heap group punycodeName, h1 with
      | [r], _ => simp [hm]

theorem keyOk_of_key (env : Collaborators) (heap : Heap)
    (desiredRecords : RecordKey → Option (List Ptr)) (punycodeName : String)
    (st st1 : LoopState) (entry : RecordKey × List String)
    (h : GetZoneRecordsCorrections.key env heap desiredRecords punycodeName st entry = .ok st1) :
    GetZoneRecordsCorrections.keyOk env heap desiredRecords punycodeName entry := by
  intro group hd
  unfold GetZoneRecordsCorrections.key at h
  simp only [hd, updateMsg_fold] at h
  by_cases hgt : (env.recordsToNative heap group punycodeName).length > 1
  · simp [hgt] at h
  · refine ⟨Nat.not_lt.mp hgt, ?_⟩
    intro hm
    simp only [hgt, if_false, hm] at h
    match hns : env.recordsToNative heap group punycodeName with
    | [] => simp [hns] at h
    | [_] => rfl
    | _ :: _ :: _ => simp [hns] at hgt

theorem loopFrom_of_keyOk (env : Collaborators) (heap : Heap)
    (desiredRecords : RecordKey → Option (List Ptr)) (punycodeName : String)
    (keys : List (RecordKey × List String)) (st : LoopState)
    (hok : ∀ e ∈ keys, GetZoneRecordsCorrections.keyOk env heap desiredRecords punycodeName e) :
    GetZoneRecordsCorrections.loopFrom env heap desiredRecords punycodeName st keys =
      .ok { rrs := st.rrs ++ keys.filterMap
              (GetZoneRecordsCorrections.payloadOf env heap desiredRecords punycodeName),
            buf := st.buf ++ keys.flatMap (fun e => e.2) } := by
  induction keys generalizing st with
  | nil => simp [GetZoneRecordsCorrections.loopFrom, pure, Except.pure]
  | cons e t ih =>
    have he := key_of_keyOk env heap desiredRecords punycodeName st e
      (hok e (List.mem_cons_self _ _))
    have ht := ih ⟨st.rrs ++
        (GetZoneRecordsCorrections.payloadOf env heap desiredRecords punycodeName e).toList,
        st.buf ++ e.2⟩ (fun x hx => hok x (List.mem_cons_of_mem _ hx))
    unfold GetZoneRecordsCorrections.loopFrom at ht ⊢
    rw [List.foldlM_cons, he]
    show List.foldlM _ _ _ = _
    rw [ht]
    cases hp : GetZoneRecordsCorrections.payloadOf env heap desiredRecords punycodeName e <;>
      simp [List.filterMap_cons, hp]

theorem keyOk_of_loopFrom (env : Collaborators) (heap : Heap)
    (desiredRecords : RecordKey → Option (List Ptr)) (punycodeName : String)
    (keys : List (RecordKey × List String)) (st st1 : LoopState)
    (h : GetZoneRecordsCorrections.loopFrom env heap desiredRecords punycodeName st keys =
      .ok st1) :
    ∀ e ∈ keys, GetZoneRecordsCorrections.keyOk env heap desiredRecords punycodeName e := by
  induction keys generalizing st with
  | nil => simp
  | cons e t ih =>
    unfold GetZoneRecordsCorrections.loopFrom at h ih
    rw [List.foldlM_cons] at h
    cases hk : GetZoneRecordsCorrections.key env heap desiredRecords punycodeName st e with
    | error err => rw [hk] at h; cases h
    | ok st2 =>
      rw [hk] at h
      intro x hx
      rcases List.mem_cons.mp hx with rfl | hx
      · exact keyOk_of_key env heap desiredRecords punycodeName st st2 _ hk
      · exact ih st2 h x hx

theorem loop_eq (env : Collaborators) (heap : Heap)
    (desiredRecords : RecordKey → Option (List Ptr)) (punycodeName : String)
    (keys : List (RecordKey × List String)) (st : LoopState)
    (h : GetZoneRecordsCorrections.loop env heap desiredRecords punycodeName keys = .ok st) :
    st = { rrs := keys.filterMap
             (GetZoneRecordsCorrections.payloadOf env heap desiredRecords punycodeName),
           buf := keys.flatMap (fun e => e.2) } := by
  unfold GetZoneRecordsCorrections.loop at h
  have hok := keyOk_of_loopFrom env heap desiredRecords punycodeName keys _ st h
  rw [loopFrom_of_keyOk env heap desiredRecords punycodeName keys _ hok] at h
  simpa using (Except.ok.inj h).symm

theorem payload_length (env : Collaborators) (heap : Heap)
    (desiredRecords : RecordKey → Option (List Ptr)) (punycodeName : String)
    (keys : List (RecordKey × List String))
    (hok : ∀ e ∈ keys, GetZoneRecordsCorrections.keyOk env heap desiredRecords punycodeName e) :
    (keys.filterMap
        (GetZoneRecordsCorrections.payloadOf env heap desiredRecords punycodeName)).length =
      keys.countP (fun e => decide (e.2 ≠ [])) := by
  induction keys with
  | nil => simp
  | cons e t ih =>
    have iht := ih (fun x hx => hok x (List.mem_cons_of_mem _ hx))
    have he := hok e (List.mem_cons_self _ _)
    by_cases hm : e.2 = []
    · simp [List.filterMap_cons, GetZoneRecordsCorrections.payloadOf, hm, iht]
    · have hsome : ∃ r, GetZoneRecordsCorrections.payloadOf env heap desiredRecords
          punycodeName e = some r := by
        unfold GetZoneRecordsCorrections.payloadOf GetZoneRecordsCorrections.rrOf
        rw [if_neg hm]
        cases hd : desiredRecords e.1 with
        | none => exact ⟨_, rfl⟩
        | some group =>
          have h1 := (he group hd).2 hm
          match hns : env.recordsToNative heap group punycodeName, h1 with
          | [r], _ => exact ⟨r, by simp [hns]⟩
      obtain ⟨r, hr⟩ := hsome
      simp [List.filterMap_cons, hr, hm, iht]

theorem sliceElems_of_len_zero {α : Type} (s : Option (List α)) (h : sliceLen s = 0) :
    sliceElems s = [] := by
  cases s with
  | none => rfl
  | some l => simpa [sliceLen, sliceElems] using h

theorem afterDiff_elems (env : Collaborators) (heap : Heap) (records : List Ptr)
    (punycodeName : String) (keys : List (RecordKey × List String))
    (toReport : List String) (n : Nat) (cs : Option (List Correction)) (cnt : Nat)
    (h : GetZoneRecordsCorrections.afterDiff env heap records punycodeName keys toReport n =
      .ok (cs, cnt)) :
    ∃ st, GetZoneRecordsCorrections.loop env heap (env.GroupedByKey heap records)
        punycodeName keys = .ok st ∧
      sliceElems cs = sliceElems (env.GenerateMessageCorrections toReport) ++
        (if st.rrs = [] then []
         else [{ Msg := "Changes:\n" ++ st.bufString, F := .upsertRR st.rrs punycodeName }]) := by
  unfold GetZoneRecordsCorrections.afterDiff at h
  by_cases hearly : sliceLen (env.GenerateMessageCorrections toReport) = 0 ∧ keys.length = 0
  · simp only [hearly, and_self, if_true] at h
    have hk : keys = [] := List.length_eq_zero.mp hearly.2
    have hcs : cs = none := by
      have := Except.ok.inj h
      exact (Prod.mk.inj this).1.symm
    refine ⟨{ rrs := [], buf := [] }, ?_, ?_⟩
    · rw [hk]; rfl
    · rw [hcs, sliceElems_of_len_zero _ hearly.1]; rfl
  · simp only [hearly, if_false] at h
    cases hl : GetZoneRecordsCorrections.loop env heap (env.GroupedByKey heap records)
        punycodeName keys with
    | error e => rw [hl] at h; cases h
    | ok st =>
      rw [hl] at h
      have hcs : cs = GetZoneRecordsCorrections.finish punycodeName
          (env.GenerateMessageCorrections toReport) st := by
        have := Except.ok.inj h
        exact (Prod.mk.inj this).1.symm
      refine ⟨st, rfl, ?_⟩
      rw [hcs]
      unfold GetZoneRecordsCorrections.finish
      cases hr : st.rrs with
      | nil => simp
      | cons r t => simp [sliceElems]

theorem GetZoneRecordsCorrections_ret (env : Collaborators) (heap : Heap)
    (dc : DomainConfig) (existing : List Ptr) (punycodeName : String) (ttl : Nat)
    (found : Bool) (keys : List (RecordKey × List String)) (toReport : List String) (n : Nat)
    (hA : env.ToASCII dc.Name = .ok punycodeName)
    (hS : env.searchDomainIndex punycodeName = .ok (ttl, found))
    (hD : env.ChangedGroups (PrepDesiredRecords heap dc (if !found then 3600 else ttl)).heap
      (PrepDesiredRecords heap dc (if !found then 3600 else ttl)).dc existing =
      .ok (keys, toReport, n)) :
    (GetZoneRecordsCorrections env heap dc existing).ret =
      GetZoneRecordsCorrections.afterDiff env
        (PrepDesiredRecords heap dc (if !found then 3600 else ttl)).heap
        (PrepDesiredRecords heap dc (if !found then 3600 else ttl)).dc.Records
        punycodeName keys toReport n := by
  unfold GetZoneRecordsCorrections
  simp only [hA, hS]
  rw [hD]

/-! ## Claims on GetZoneRecordsCorrections -/

/-- C5: a converged zone yields zero corrections. When the zone name converts to
ASCII, the domain-index lookup succeeds and the diff returns no changed key and no
report message (for which `GenerateMessageCorrections` gives no correction),
`GetZoneRecordsCorrections` returns the nil correction list, change count 0 and no
error. -/
theorem GetZoneRecordsCorrections_converged (env : Collaborators) (heap : Heap)
    (dc : DomainConfig) (existing : List Ptr) (punycodeName : String) (ttl : Nat)
    (found : Bool) (n : Nat)
    (hA : env.ToASCII dc.Name = .ok punycodeName)
    (hS : env.searchDomainIndex punycodeName = .ok (ttl, found))
    (hD : env.ChangedGroups (PrepDesiredRecords heap dc (if !found then 3600 else ttl)).heap
      (PrepDesiredRecords heap dc (if !found then 3600 else ttl)).dc existing =
      .ok ([], [], n))
    (hG : sliceLen (env.GenerateMessageCorrections []) = 0) :
    (GetZoneRecordsCorrections env heap dc existing).ret = .ok (none, 0) := by
  rw [GetZoneRecordsCorrections_ret env heap dc existing punycodeName ttl found [] [] n hA hS hD]
  simp [GetZoneRecordsCorrections.afterDiff, hG]

/-- The scenario of C5: the sample zone with nothing to change returns no
correction, also when the diff counts changes it does not list. -/
theorem GetZoneRecordsCorrections_converged_witness :
    (GetZoneRecordsCorrections (sampleEnv [] []) sampleHeap
      { Name := "example.com", Records := [0, 4, 5] } [0, 4, 5]).ret = .ok (none, 0) :=
  GetZoneRecordsCorrections_converged (sampleEnv [] []) sampleHeap
    { Name := "example.com", Records := [0, 4, 5] } [0, 4, 5] "example.com" 300 true 0
    rfl rfl rfl rfl

/-- C6 as stated fails: the same two changed keys, enumerated in the two possible
orders, give two different correction messages and payloads, and the second run
lists `old.example.com` before `example.com`. -/
theorem GetZoneRecordsCorrections_order_counterexample :
    (GetZoneRecordsCorrections
      (sampleEnv [(⟨"example.com", "TXT"⟩, ["- DELETE example.com TXT"]),
                  (⟨"old.example.com", "A"⟩, ["- DELETE old.example.com A"])] [])
      sampleHeap { Name := "example.com", Records := [0, 4, 5] } []).ret =
      .ok (some [{ Msg := "Changes:\n- DELETE example.com TXT\n- DELETE old.example.com A\n",
                   F := .upsertRR
                     [{ Subname := "", Records := some [], TTL := 3600, Type_ := "TXT" },
                      { Subname := "old", Records := some [], TTL := 3600, Type_ := "A" }]
                     "example.com" }], 2) ∧
    (GetZoneRecordsCorrections
      (sampleEnv [(⟨"old.example.com", "A"⟩, ["- DELETE old.example.com A"]),
                  (⟨"example.com", "TXT"⟩, ["- DELETE example.com TXT"])] [])
      sampleHeap { Name := "example.com", Records := [0, 4, 5] } []).ret =
      .ok (some [{ Msg := "Changes:\n- DELETE old.example.com A\n- DELETE example.com TXT\n",
                   F := .upsertRR
                     [{ Subname := "old", Records := some [], TTL := 3600, Type_ := "A" },
                      { Subname := "", Records := some [], TTL := 3600, Type_ := "TXT" }]
                     "example.com" }], 2) ∧
    (GetZoneRecordsCorrections
      (sampleEnv [(⟨"example.com", "TXT"⟩, ["- DELETE example.com TXT"]),
                  (⟨"old.example.com", "A"⟩, ["- DELETE old.example.com A"])] [])
      sampleHeap { Name := "example.com", Records := [0, 4, 5] } []).ret ≠
    (GetZoneRecordsCorrections
      (sampleEnv [(⟨"old.example.com", "A"⟩, ["- DELETE old.example.com A"]),
                  (⟨"example.com", "TXT"⟩, ["- DELETE example.com TXT"])] [])
      sampleHeap { Name := "example.com", Records := [0, 4, 5] } []).ret := by
  decide

/-- C6, amended: the lines of the message and the record sets of the payload follow
the order in which `keysToUpdate` is enumerated, the messages of one key together
and in their order; a second enumeration of the same entries also succeeds and gives
the same lines and the same record sets up to their order. -/
theorem loop_follows_enumeration (env : Collaborators) (heap : Heap)
    (desiredRecords : RecordKey → Option (List Ptr)) (punycodeName : String)
    (keys keys2 : List (RecordKey × List String)) (st : LoopState)
    (hperm : keys.Perm keys2)
    (h : GetZoneRecordsCorrections.loop env heap desiredRecords punycodeName keys = .ok st) :
    st.buf = keys.flatMap (fun e => e.2) ∧
    st.rrs = keys.filterMap
      (GetZoneRecordsCorrections.payloadOf env heap desiredRecords punycodeName) ∧
    ∃ st2, GetZoneRecordsCorrections.loop env heap desiredRecords punycodeName keys2 = .ok st2 ∧
      st2.buf = keys2.flatMap (fun e => e.2) ∧
      st2.rrs = keys2.filterMap
        (GetZoneRecordsCorrections.payloadOf env heap desiredRecords punycodeName) ∧
      st2.buf.Perm st.buf ∧ st2.rrs.Perm st.rrs := by
  have hst := loop_eq env heap desiredRecords punycodeName keys st h
  have hok := keyOk_of_loopFrom env heap desiredRecords punycodeName keys _ st h
  have hok2 : ∀ e ∈ keys2,
      GetZoneRecordsCorrections.keyOk env heap desiredRecords punycodeName e :=
    fun e he => hok e (hperm.mem_iff.mpr he)
  have h2 := loopFrom_of_keyOk env heap desiredRecords punycodeName keys2
    { rrs := [], buf := [] } hok2
  refine ⟨by rw [hst], by rw [hst], _, h2, by simp, by simp, ?_, ?_⟩
  · rw [hst]
    simpa using (hperm.flatMap_right (fun e => e.2)).symm
  · rw [hst]
    simpa using (hperm.filterMap _).symm

/-- The scenario of C6, amended: the two enumerations of the two deleted keys give
the same lines and record sets in the two orders. -/
theorem loop_follows_enumeration_witness :
    ∃ st2, GetZoneRecordsCorrections.loop (sampleEnv [] []) sampleHeap
        ((sampleEnv [] []).GroupedByKey sampleHeap [0, 4, 5]) "example.com"
        [(⟨"old.example.com", "A"⟩, ["- DELETE old.example.com A"]),
         (⟨"example.com", "TXT"⟩, ["- DELETE example.com TXT"])] = .ok st2 ∧
      st2.buf = ["- DELETE old.example.com A", "- DELETE example.com TXT"] ∧
      st2.buf.Perm ["- DELETE example.com TXT", "- DELETE old.example.com A"] :=
  have h := loop_follows_enumeration (sampleEnv [] []) sampleHeap
    ((sampleEnv [] []).GroupedByKey sampleHeap [0, 4, 5]) "example.com"
    [(⟨"example.com", "TXT"⟩, ["- DELETE example.com TXT"]),
     (⟨"old.example.com", "A"⟩, ["- DELETE old.example.com A"])]
    [(⟨"old.example.com", "A"⟩, ["- DELETE old.example.com A"]),
     (⟨"example.com", "TXT"⟩, ["- DELETE example.com TXT"])]
    { rrs := [{ Subname := "", Records := some [], TTL := 3600, Type_ := "TXT" },
              { Subname := "old", Records := some [], TTL := 3600, Type_ := "A" }],
      buf := ["- DELETE example.com TXT", "- DELETE old.example.com A"] }
    (List.Perm.swap _ _ _) (by decide)
  match h.2.2 with
  | ⟨st2, h1, h2, _, h4, _⟩ => ⟨st2, h1, h2, h4⟩

/-- C7: message coalescing. The loop returns whenever `recordsToNative` gives exactly
one record set for every changed key found in `desiredRecords`; whenever it returns,
the payload has one record set per changed key with a non-empty message list, the
lines written are all messages of all keys, each once, key after key, so that their
number is the total number of messages, and they are the lines of the description
after `Changes:`; and one pass of the body for a key with messages adds one record
set however many messages follow the first. -/
theorem loop_coalesces_messages (env : Collaborators) (heap : Heap)
    (desiredRecords : RecordKey → Option (List Ptr)) (punycodeName : String)
    (keys : List (RecordKey × List String)) :
    ((∀ e ∈ keys, ∀ group, desiredRecords e.1 = some group →
        (env.recordsToNative heap group punycodeName).length = 1) →
      ∃ st, GetZoneRecordsCorrections.loop env heap desiredRecords punycodeName keys = .ok st) ∧
    (∀ st, GetZoneRecordsCorrections.loop env heap desiredRecords punycodeName keys = .ok st →
      st.rrs.length = keys.countP (fun e => decide (e.2 ≠ [])) ∧
      st.buf = keys.flatMap (fun e => e.2) ∧
      st.buf.length = (keys.map (fun e => e.2.length)).sum ∧
      ∀ reports, st.rrs ≠ [] →
        GetZoneRecordsCorrections.finish punycodeName reports st =
          some (sliceElems reports ++
            [{ Msg := "Changes:\n" ++ String.join (st.buf.map (fun line => line ++ "\n")),
               F := .upsertRR st.rrs punycodeName }])) ∧
    (∀ st0 st1 label msg rest,
      GetZoneRecordsCorrections.key env heap desiredRecords punycodeName st0
        (label, msg :: rest) = .ok st1 →
      st1.rrs.length = st0.rrs.length + 1 ∧ st1.buf = st0.buf ++ msg :: rest) := by
  refine ⟨?_, ?_, ?_⟩
  · intro hone
    have hok : ∀ e ∈ keys,
        GetZoneRecordsCorrections.keyOk env heap desiredRecords punycodeName e := by
      intro e he group hd
      have h1 := hone e he group hd
      exact ⟨by omega, fun _ => h1⟩
    exact ⟨_, loopFrom_of_keyOk env heap desiredRecords punycodeName keys _ hok⟩
  · intro st h
    have hst := loop_eq env heap desiredRecords punycodeName keys st h
    have hok := keyOk_of_loopFrom env heap desiredRecords punycodeName keys _ st h
    have hlen := payload_length env heap desiredRecords punycodeName keys hok
    refine ⟨by rw [hst]; exact hlen, by rw [hst], ?_, ?_⟩
    · rw [hst]
      simp only [List.flatMap, List.length_flatten, List.map_map]
      rfl
    · intro reports hne
      unfold GetZoneRecordsCorrections.finish
      have hpos : st.rrs.length > 0 := List.length_pos.mpr hne
      simp [hpos, LoopState.bufString]
  · intro st0 st1 label msg rest hk
    have hok := keyOk_of_key env heap desiredRecords punycodeName st0 st1 _ hk
    rw [key_of_keyOk env heap desiredRecords punycodeName st0 _ hok] at hk
    have hst := (Except.ok.inj hk).symm
    have hlen := payload_length env heap desiredRecords punycodeName [(label, msg :: rest)]
      (by intro e he; rw [List.mem_singleton.mp he]; exact hok)
    cases hp : GetZoneRecordsCorrections.payloadOf env heap desiredRecords punycodeName
        (label, msg :: rest) with
    | none => simp [List.filterMap_cons, hp] at hlen
    | some r => rw [hst]; simp [hp]

/-- The scenario of C7: an updated key with two messages and a deleted key with one
message give a payload of two record sets and three description lines. -/
theorem loop_coalesces_messages_witness :
    ∃ st, GetZoneRecordsCorrections.loop (sampleEnv [] []) sampleHeap
        ((sampleEnv [] []).GroupedByKey sampleHeap [0, 4, 5]) "example.com"
        [(⟨"mail.example.com", "MX"⟩, ["+ CREATE 20 b.example.com.", "TTL changed"]),
         (⟨"old.example.com", "A"⟩, ["- DELETE old.example.com A"])] = .ok st ∧
      st.rrs.length = 2 ∧ st.buf.length = 3 :=
  have h := loop_coalesces_messages (sampleEnv [] []) sampleHeap
    ((sampleEnv [] []).GroupedByKey sampleHeap [0, 4, 5]) "example.com"
    [(⟨"mail.example.com", "MX"⟩, ["+ CREATE 20 b.example.com.", "TTL changed"]),
     (⟨"old.example.com", "A"⟩, ["- DELETE old.example.com A"])]
  ⟨_, rfl, (h.2.1 _ rfl).1, (h.2.1 _ rfl).2.2.1⟩

theorem GetZoneRecordsCorrections_state (env : Collaborators) (heap : Heap)
    (dc : DomainConfig) (existing : List Ptr) (punycodeName : String) (ttl : Nat)
    (found : Bool)
    (hA : env.ToASCII dc.Name = .ok punycodeName)
    (hS : env.searchDomainIndex punycodeName = .ok (ttl, found)) :
    (GetZoneRecordsCorrections env heap dc existing).heap =
      (PrepDesiredRecords heap dc (if !found then 3600 else ttl)).heap ∧
    (GetZoneRecordsCorrections env heap dc existing).dc =
      (PrepDesiredRecords heap dc (if !found then 3600 else ttl)).dc ∧
    (GetZoneRecordsCorrections env heap dc existing).log =
      (PrepDesiredRecords heap dc (if !found then 3600 else ttl)).log := by
  simp only [GetZoneRecordsCorrections, hA, hS, and_self]

theorem GetZoneRecordsCorrections_ret_match (env : Collaborators) (heap : Heap)
    (dc : DomainConfig) (existing : List Ptr) (punycodeName : String) (ttl : Nat)
    (found : Bool)
    (hA : env.ToASCII dc.Name = .ok punycodeName)
    (hS : env.searchDomainIndex punycodeName = .ok (ttl, found)) :
    (GetZoneRecordsCorrections env heap dc existing).ret =
      match env.ChangedGroups (PrepDesiredRecords heap dc (if !found then 3600 else ttl)).heap
          (PrepDesiredRecords heap dc (if !found then 3600 else ttl)).dc existing with
      | .error e => .error (.error e)
      | .ok (keys, toReport, n) =>
        GetZoneRecordsCorrections.afterDiff env
          (PrepDesiredRecords heap dc (if !found then 3600 else ttl)).heap
          (PrepDesiredRecords heap dc (if !found then 3600 else ttl)).dc.Records
          punycodeName keys toReport n := by
  simp only [GetZoneRecordsCorrections, hA, hS]

theorem GetZoneRecordsCorrections_inv (env : Collaborators) (heap : Heap)
    (dc : DomainConfig) (existing : List Ptr) (cs : Option (List Correction)) (cnt : Nat)
    (h : (GetZoneRecordsCorrections env heap dc existing).ret = .ok (cs, cnt)) :
    ∃ punycodeName keys toReport n,
      env.ToASCII dc.Name = .ok punycodeName ∧
      env.ChangedGroups (GetZoneRecordsCorrections env heap dc existing).heap
        (GetZoneRecordsCorrections env heap dc existing).dc existing =
        .ok (keys, toReport, n) ∧
      GetZoneRecordsCorrections.afterDiff env
        (GetZoneRecordsCorrections env heap dc existing).heap
        (GetZoneRecordsCorrections env heap dc existing).dc.Records
        punycodeName keys toReport n = .ok (cs, cnt) := by
  cases hA : env.ToASCII dc.Name with
  | error e =>
    have hr : (GetZoneRecordsCorrections env heap dc existing).ret = .error (.error e) := by
      simp only [GetZoneRecordsCorrections, hA]
    rw [hr] at h; cases h
  | ok punycodeName =>
    cases hS : env.searchDomainIndex punycodeName with
    | error e =>
      have hr : (GetZoneRecordsCorrections env heap dc existing).ret = .error (.error e) := by
        simp only [GetZoneRecordsCorrections, hA, hS]
      rw [hr] at h; cases h
    | ok r =>
      obtain ⟨ttl, found⟩ := r
      have hstate := GetZoneRecordsCorrections_state env heap dc existing punycodeName ttl
        found hA hS
      rw [hstate.1, hstate.2.1]
      rw [GetZoneRecordsCorrections_ret_match env heap dc existing punycodeName ttl found
        hA hS] at h
      cases hD : env.ChangedGroups (PrepDesiredRecords heap dc (if !found then 3600 else ttl)).heap
          (PrepDesiredRecords heap dc (if !found then 3600 else ttl)).dc existing with
      | error e => rw [hD] at h; cases h
      | ok r =>
        obtain ⟨keys, toReport, n⟩ := r
        rw [hD] at h
        exact ⟨punycodeName, keys, toReport, n, rfl, rfl, h⟩

/-- C8 as stated fails: with two changed keys, one updated and one deleted, the
call returns a single correction, whose action upserts the record sets of both
keys. -/
theorem GetZoneRecordsCorrections_per_key_counterexample :
    (GetZoneRecordsCorrections
      (sampleEnv [(⟨"mail.example.com", "MX"⟩, ["+ CREATE mail.example.com MX 20 b.example.com."]),
                  (⟨"old.example.com", "A"⟩, ["- DELETE old.example.com A"])] [])
      sampleHeap { Name := "example.com", Records := [0, 4, 5] } [0, 4]).ret =
      .ok (some [{ Msg := "Changes:\n+ CREATE mail.example.com MX 20 b.example.com.\n- DELETE old.example.com A\n",
                   F := .upsertRR
                     [{ Subname := "mail",
                        Records := some ["10 a.example.com.", "20 b.example.com."],
                        TTL := 3600, Type_ := "MX" },
                      { Subname := "old", Records := some [], TTL := 3600, Type_ := "A" }]
                     "example.com" }], 2) := by
  decide

/-- C8, amended: one upsert correction for all changed keys together. When the call
succeeds, the corrections that follow the report corrections are a single one if
some changed key has a message and none otherwise; its action upserts, in one call,
one record set per changed key that has a message, each built from that key alone,
in the order of enumeration. -/
theorem GetZoneRecordsCorrections_single_upsert (env : Collaborators) (heap : Heap)
    (dc : DomainConfig) (existing : List Ptr) (cs : Option (List Correction)) (cnt : Nat)
    (h : (GetZoneRecordsCorrections env heap dc existing).ret = .ok (cs, cnt)) :
    ∃ punycodeName keys toReport n tail,
      env.ToASCII dc.Name = .ok punycodeName ∧
      env.ChangedGroups (GetZoneRecordsCorrections env heap dc existing).heap
        (GetZoneRecordsCorrections env heap dc existing).dc existing =
        .ok (keys, toReport, n) ∧
      sliceElems cs = sliceElems (env.GenerateMessageCorrections toReport) ++ tail ∧
      tail.length = (if keys.countP (fun e => decide (e.2 ≠ [])) = 0 then 0 else 1) ∧
      ∀ c ∈ tail, ∃ rrs, c.F = .upsertRR rrs punycodeName ∧
        rrs.length = keys.countP (fun e => decide (e.2 ≠ [])) ∧
        rrs = keys.filterMap (GetZoneRecordsCorrections.payloadOf env
          (GetZoneRecordsCorrections env heap dc existing).heap
          (env.GroupedByKey (GetZoneRecordsCorrections env heap dc existing).heap
            (GetZoneRecordsCorrections env heap dc existing).dc.Records) punycodeName) := by
  obtain ⟨punycodeName, keys, toReport, n, hA, hD, hafter⟩ :=
    GetZoneRecordsCorrections_inv env heap dc existing cs cnt h
  obtain ⟨st, hloop, hcs⟩ := afterDiff_elems env _ _ punycodeName keys toReport n cs cnt hafter
  have hst := loop_eq env _ _ punycodeName keys st hloop
  have hok := keyOk_of_loopFrom env _ _ punycodeName keys _ st hloop
  have hlen := payload_length env _ _ punycodeName keys hok
  have hrrs : st.rrs.length = keys.countP (fun e => decide (e.2 ≠ [])) := by
    rw [hst]; exact hlen
  refine ⟨punycodeName, keys, toReport, n, _, hA, hD, hcs, ?_, ?_⟩
  · by_cases hz : st.rrs = []
    · have h0 : keys.countP (fun e => decide (e.2 ≠ [])) = 0 := by rw [← hrrs, hz]; rfl
      rw [if_pos hz, if_pos h0]; rfl
    · have h1 : keys.countP (fun e => decide (e.2 ≠ [])) ≠ 0 := by
        rw [← hrrs]; exact fun e => hz (List.length_eq_zero.mp e)
      rw [if_neg hz, if_neg h1]; rfl
  · intro c hc
    by_cases hz : st.rrs = []
    · simp [hz] at hc
    · simp only [hz, if_false, List.mem_singleton] at hc
      refine ⟨st.rrs, by rw [hc], hrrs, ?_⟩
      rw [hst]

/-- The scenario of C8, amended: the two changed keys of the sample are sent by the
one correction that follows the report. -/
theorem GetZoneRecordsCorrections_single_upsert_witness :
    ∃ tail : List Correction,
      [{ Msg := "report", F := .foreign 0 },
       { Msg := "Changes:\n+ CREATE mail.example.com MX 20 b.example.com.\n- DELETE old.example.com A\n",
         F := .upsertRR
           [{ Subname := "mail", Records := some ["10 a.example.com.", "20 b.example.com."],
              TTL := 3600, Type_ := "MX" },
            { Subname := "old", Records := some [], TTL := 3600, Type_ := "A" }]
           "example.com" }] = ([{ Msg := "report", F := .foreign 0 }] : List Correction) ++ tail ∧
      tail.length = 1 :=
  match GetZoneRecordsCorrections_single_upsert
    (sampleEnv [(⟨"mail.example.com", "MX"⟩, ["+ CREATE mail.example.com MX 20 b.example.com."]),
                (⟨"old.example.com", "A"⟩, ["- DELETE old.example.com A"])] ["report"])
    sampleHeap { Name := "example.com", Records := [0, 4, 5] } [0, 4]
    (some [{ Msg := "report", F := .foreign 0 },
       { Msg := "Changes:\n+ CREATE mail.example.com MX 20 b.example.com.\n- DELETE old.example.com A\n",
         F := .upsertRR
           [{ Subname := "mail", Records := some ["10 a.example.com.", "20 b.example.com."],
              TTL := 3600, Type_ := "MX" },
            { Subname := "old", Records := some [], TTL := 3600, Type_ := "A" }]
           "example.com" }]) 2 (by decide) with
  | ⟨_, _, _, _, tail, _, hD, hcs, hlen, _⟩ =>
    have hk := (Prod.mk.inj (Except.ok.inj hD)).1
    have hr := (Prod.mk.inj (Prod.mk.inj (Except.ok.inj hD)).2).1
    ⟨tail, by rw [← hr] at hcs; exact hcs, by rw [← hk] at hlen; exact hlen⟩

/-- C9: a changed record set is sent as one call. Whenever
`GetZoneRecordsCorrections` succeeds, the returned list is the report corrections
of `GenerateMessageCorrections`, in their order, followed by the upsert correction
exactly when the payload is not empty, and the message of that correction is
`Changes:` and a newline followed by the collected messages, one per line. In
particular, when the one changed key has a message and `recordsToNative` turns its
desired group into the record set `rr`, the call succeeds and the one upsert
correction carries the payload `[rr]`. -/
theorem GetZoneRecordsCorrections_reports_then_upsert (env : Collaborators) (heap : Heap)
    (dc : DomainConfig) (existing : List Ptr) :
    (∀ cs cnt, (GetZoneRecordsCorrections env heap dc existing).ret = .ok (cs, cnt) →
      ∃ punycodeName keys toReport n st,
        env.ToASCII dc.Name = .ok punycodeName ∧
        env.ChangedGroups (GetZoneRecordsCorrections env heap dc existing).heap
          (GetZoneRecordsCorrections env heap dc existing).dc existing =
          .ok (keys, toReport, n) ∧
        GetZoneRecordsCorrections.loop env (GetZoneRecordsCorrections env heap dc existing).heap
          (env.GroupedByKey (GetZoneRecordsCorrections env heap dc existing).heap
            (GetZoneRecordsCorrections env heap dc existing).dc.Records)
          punycodeName keys = .ok st ∧
        sliceElems cs = sliceElems (env.GenerateMessageCorrections toReport) ++
          (if st.rrs = [] then []
           else [{ Msg := "Changes:\n" ++
                     String.join ((keys.flatMap (fun e => e.2)).map (fun m => m ++ "\n")),
                   F := .upsertRR st.rrs punycodeName }])) ∧
    (∀ punycodeName ttl found label msg rest toReport n group rr,
      env.ToASCII dc.Name = .ok punycodeName →
      env.searchDomainIndex punycodeName = .ok (ttl, found) →
      env.ChangedGroups (PrepDesiredRecords heap dc (if !found then 3600 else ttl)).heap
        (PrepDesiredRecords heap dc (if !found then 3600 else ttl)).dc existing =
        .ok ([(label, msg :: rest)], toReport, n) →
      env.GroupedByKey (PrepDesiredRecords heap dc (if !found then 3600 else ttl)).heap
        (PrepDesiredRecords heap dc (if !found then 3600 else ttl)).dc.Records label =
        some group →
      env.recordsToNative (PrepDesiredRecords heap dc (if !found then 3600 else ttl)).heap
        group punycodeName = [rr] →
      (GetZoneRecordsCorrections env heap dc existing).ret =
        .ok (some (sliceElems (env.GenerateMessageCorrections toReport) ++
          [{ Msg := "Changes:\n" ++ String.join ((msg :: rest).map (fun m => m ++ "\n")),
             F := .upsertRR [rr] punycodeName }]), n)) := by
  refine ⟨?_, ?_⟩
  · intro cs cnt h
    obtain ⟨punycodeName, keys, toReport, n, hA, hD, hafter⟩ :=
      GetZoneRecordsCorrections_inv env heap dc existing cs cnt h
    obtain ⟨st, hloop, hcs⟩ :=
      afterDiff_elems env _ _ punycodeName keys toReport n cs cnt hafter
    have hst := loop_eq env _ _ punycodeName keys st hloop
    refine ⟨punycodeName, keys, toReport, n, st, hA, hD, hloop, ?_⟩
    rw [hcs]
    have hb : st.bufString =
        String.join ((keys.flatMap (fun e => e.2)).map (fun m => m ++ "\n")) := by
      rw [hst]; rfl
    rw [hb]
  · intro punycodeName ttl found label msg rest toReport n group rr hA hS hD hG hN
    rw [GetZoneRecordsCorrections_ret env heap dc existing punycodeName ttl found _ _ _
      hA hS hD]
    generalize PrepDesiredRecords heap dc (if !found then 3600 else ttl) = prep at hG hN ⊢
    have hok : ∀ e ∈ [(label, msg :: rest)],
        GetZoneRecordsCorrections.keyOk env prep.heap
          (env.GroupedByKey prep.heap prep.dc.Records) punycodeName e := by
      intro e he group2 hd
      rw [List.mem_singleton.mp he] at hd
      rw [hG] at hd
      rw [← Option.some.inj hd, hN]
      exact ⟨Nat.le_refl _, fun _ => rfl⟩
    have hloop := loopFrom_of_keyOk env _ _ punycodeName [(label, msg :: rest)]
      { rrs := [], buf := [] } hok
    simp only [GetZoneRecordsCorrections.afterDiff, GetZoneRecordsCorrections.loop, hloop]
    simp [GetZoneRecordsCorrections.payloadOf, GetZoneRecordsCorrections.rrOf, hG, hN,
      GetZoneRecordsCorrections.finish, LoopState.bufString]

/-- The scenario of C9: `mail.example.com MX [10 a, 20 b]` desired against
`MX [10 a]`. The call returns the report followed by exactly one upsert correction,
whose payload is the one record set with both members. -/
theorem GetZoneRecordsCorrections_reports_then_upsert_witness :
    (GetZoneRecordsCorrections
      (sampleEnv [(⟨"mail.example.com", "MX"⟩, ["+ CREATE mail.example.com MX 20 b.example.com."])]
        ["report"])
      sampleHeap { Name := "example.com", Records := [4, 5] } [4]).ret =
      .ok (some [{ Msg := "report", F := .foreign 0 },
           { Msg := "Changes:\n+ CREATE mail.example.com MX 20 b.example.com.\n",
             F := .upsertRR
               [{ Subname := "mail", Records := some ["10 a.example.com.", "20 b.example.com."],
                  TTL := 3600, Type_ := "MX" }]
               "example.com" }], 1) :=
  (GetZoneRecordsCorrections_reports_then_upsert
      (sampleEnv [(⟨"mail.example.com", "MX"⟩, ["+ CREATE mail.example.com MX 20 b.example.com."])]
        ["report"])
      sampleHeap { Name := "example.com", Records := [4, 5] } [4]).2
    "example.com" 300 true ⟨"mail.example.com", "MX"⟩
    "+ CREATE mail.example.com MX 20 b.example.com." [] ["report"] 1 [4, 5]
    { Subname := "mail", Records := some ["10 a.example.com.", "20 b.example.com."],
      TTL := 3600, Type_ := "MX" }
    rfl rfl rfl (by decide) (by decide)

/-! ## Further claims on PrepDesiredRecords and its use -/

theorem prep_ttl_ge (heap : Heap) (dc : DomainConfig) (minTTL : Nat) (p : Ptr)
    (hp : p ∈ (PrepDesiredRecords heap dc minTTL).dc.Records) :
    ((PrepDesiredRecords heap dc minTTL).heap p).Type_ ≠ "ALIAS" ∧
    ((PrepDesiredRecords heap dc minTTL).heap p).TTL = max (heap p).TTL minTTL := by
  rw [prep_records, List.mem_filter] at hp
  have hty : (heap p).Type_ ≠ "ALIAS" := by simpa using hp.2
  refine ⟨by rw [prep_type]; exact hty, ?_⟩
  rw [prep_heap]
  by_cases hlt : (heap p).TTL < minTTL
  · rw [if_pos ⟨hp.1, hty, hlt⟩]
    exact (Nat.max_eq_right (Nat.le_of_lt hlt)).symm
  · rw [if_neg (fun h => hlt h.2.2)]
    exact (Nat.max_eq_left (Nat.not_lt.mp hlt)).symm

theorem prep_log_nil (heap : Heap) (dc : DomainConfig) (minTTL : Nat)
    (h : ∀ p ∈ dc.Records, (heap p).Type_ ≠ "ALIAS" ∧ minTTL ≤ (heap p).TTL) :
    (PrepDesiredRecords heap dc minTTL).log = [] := by
  apply List.eq_nil_iff_forall_not_mem.mpr
  intro w hw
  rcases log_cases heap dc minTTL w hw with ha | ⟨p, hp, _, _, hlt, _⟩
  · have hc := prep_alias_count heap dc minTTL
    have hz : dc.Records.countP (fun p => decide ((heap p).Type_ = "ALIAS")) = 0 := by
      rw [List.countP_eq_zero]
      intro p hp
      simpa using (h p hp).1
    rw [hz] at hc
    rw [ha] at hw
    exact absurd hw (List.count_eq_zero.mp hc)
  · exact absurd hlt (Nat.not_lt.mpr (h p hp).2)

/-- C17: `PrepDesiredRecords` is idempotent. A second application with the same
`minTTL` leaves `dc` (so `dc.Records`) and every record object (so every TTL) as the
first application left them, and prints no warning. -/
theorem PrepDesiredRecords_idempotent (heap : Heap) (dc : DomainConfig) (minTTL : Nat) :
    (PrepDesiredRecords (PrepDesiredRecords heap dc minTTL).heap
        (PrepDesiredRecords heap dc minTTL).dc minTTL).dc =
      (PrepDesiredRecords heap dc minTTL).dc ∧
    (PrepDesiredRecords (PrepDesiredRecords heap dc minTTL).heap
        (PrepDesiredRecords heap dc minTTL).dc minTTL).heap =
      (PrepDesiredRecords heap dc minTTL).heap ∧
    (PrepDesiredRecords (PrepDesiredRecords heap dc minTTL).heap
        (PrepDesiredRecords heap dc minTTL).dc minTTL).log = [] := by
  have hall : ∀ p ∈ (PrepDesiredRecords heap dc minTTL).dc.Records,
      ((PrepDesiredRecords heap dc minTTL).heap p).Type_ ≠ "ALIAS" ∧
      minTTL ≤ ((PrepDesiredRecords heap dc minTTL).heap p).TTL := by
    intro p hp
    have h := prep_ttl_ge heap dc minTTL p hp
    exact ⟨h.1, by rw [h.2]; exact Nat.le_max_right _ _⟩
  refine ⟨?_, ?_, prep_log_nil _ _ minTTL hall⟩
  · have hr := prep_records (PrepDesiredRecords heap dc minTTL).heap
      (PrepDesiredRecords heap dc minTTL).dc minTTL
    have hf : (PrepDesiredRecords heap dc minTTL).dc.Records.filter
        (fun p => decide (((PrepDesiredRecords heap dc minTTL).heap p).Type_ ≠ "ALIAS")) =
        (PrepDesiredRecords heap dc minTTL).dc.Records := by
      rw [List.filter_eq_self]
      intro p hp
      simpa using (hall p hp).1
    rw [hf] at hr
    generalize PrepDesiredRecords heap dc minTTL = r1 at hr ⊢
    cases hdc : r1.dc with
    | mk name records =>
      rw [hdc] at hr
      simp only [PrepDesiredRecords] at hr ⊢
      simp only [DomainConfig.mk.injEq, true_and]
      exact hr
  · funext q
    rw [prep_heap (PrepDesiredRecords heap dc minTTL).heap]
    by_cases hq : q ∈ (PrepDesiredRecords heap dc minTTL).dc.Records
    · rw [if_neg (fun h => absurd h.2.2 (Nat.not_lt.mpr (hall q hq).2))]
    · rw [if_neg (fun h => hq h.1)]

/-- The scenario of C17: after the sample zone has been normalised with `minTTL`
300, a second normalisation prints nothing. -/
theorem PrepDesiredRecords_idempotent_witness :
    (PrepDesiredRecords
      (PrepDesiredRecords sampleHeap { Name := "example.com", Records := [0, 1, 2] } 300).heap
      (PrepDesiredRecords sampleHeap { Name := "example.com", Records := [0, 1, 2] } 300).dc
      300).log = [] ∧
    (PrepDesiredRecords sampleHeap { Name := "example.com", Records := [0, 1, 2] } 300).log ≠ [] :=
  ⟨(PrepDesiredRecords_idempotent sampleHeap
      { Name := "example.com", Records := [0, 1, 2] } 300).2.2, by decide⟩

/-- C18: `PrepDesiredRecords` changes nothing but TTLs and the removal of ALIAS
records. `dc.Records` afterwards is the input list filtered by type other than ALIAS,
in the same order; each kept record has the maximum of its original TTL and `minTTL`
as TTL; of every record object, kept or dropped, the fields other than TTL are as
before, and an object that is not kept is as before in every field; and the other
fields of `dc` are as before. -/
theorem PrepDesiredRecords_frame (heap : Heap) (dc : DomainConfig) (minTTL : Nat) :
    (PrepDesiredRecords heap dc minTTL).dc.Records =
      dc.Records.filter (fun p => decide ((heap p).Type_ ≠ "ALIAS")) ∧
    (∀ p ∈ (PrepDesiredRecords heap dc minTTL).dc.Records,
      ((PrepDesiredRecords heap dc minTTL).heap p).TTL = max (heap p).TTL minTTL) ∧
    (∀ p, (PrepDesiredRecords heap dc minTTL).heap p =
      { heap p with TTL := ((PrepDesiredRecords heap dc minTTL).heap p).TTL }) ∧
    (∀ p, p ∉ (PrepDesiredRecords heap dc minTTL).dc.Records →
      (PrepDesiredRecords heap dc minTTL).heap p = heap p) ∧
    (PrepDesiredRecords heap dc minTTL).dc.Name = dc.Name := by
  refine ⟨prep_records heap dc minTTL, fun p hp => (prep_ttl_ge heap dc minTTL p hp).2,
    ?_, ?_, rfl⟩
  · intro p
    rw [prep_heap]
    split <;> rfl
  · intro p hp
    rw [prep_records, List.mem_filter] at hp
    rw [prep_heap]
    apply if_neg
    intro h
    exact hp ⟨h.1, by simpa using h.2.1⟩

/-- The scenario of C18: of the A, ALIAS, NS and LOC records of the sample, the
ALIAS is removed and the others stay in order; the A record gets TTL 300 and the LOC
record keeps 3600. -/
theorem PrepDesiredRecords_frame_witness :
    (PrepDesiredRecords sampleHeap { Name := "example.com", Records := [0, 1, 2, 3] }
      300).dc.Records = [0, 2, 3] ∧
    ((PrepDesiredRecords sampleHeap { Name := "example.com", Records := [0, 1, 2, 3] }
      300).heap 0).TTL = 300 ∧
    ((PrepDesiredRecords sampleHeap { Name := "example.com", Records := [0, 1, 2, 3] }
      300).heap 3).TTL = 3600 :=
  ⟨(PrepDesiredRecords_frame sampleHeap
      { Name := "example.com", Records := [0, 1, 2, 3] } 300).1,
   (PrepDesiredRecords_frame sampleHeap
      { Name := "example.com", Records := [0, 1, 2, 3] } 300).2.1 0 (by decide),
   (PrepDesiredRecords_frame sampleHeap
      { Name := "example.com", Records := [0, 1, 2, 3] } 300).2.1 3 (by decide)⟩

/-! ## Claims on EnsureZoneExists and NewDeSec -/

/-- C13: `EnsureZoneExists` is a no-op for an existing zone. `createDomain` is called
if and only if `searchDomainIndex` succeeds and reports the domain as not found, and
then it is called once, with the domain, and its result is returned; when the
domain is found the method returns nil without the call; when the lookup fails it
returns that error without the call. -/
theorem EnsureZoneExists_creates_only_when_missing
    (searchDomainIndex : String → Except String (Nat × Bool))
    (createDomain : String → Option String) (domain : String) :
    ((EnsureZoneExists searchDomainIndex createDomain domain).created ≠ [] ↔
      ∃ ttl, searchDomainIndex domain = .ok (ttl, false)) ∧
    (∀ ttl, searchDomainIndex domain = .ok (ttl, false) →
      EnsureZoneExists searchDomainIndex createDomain domain =
        { created := [domain], ret := createDomain domain }) ∧
    (∀ ttl, searchDomainIndex domain = .ok (ttl, true) →
      EnsureZoneExists searchDomainIndex createDomain domain =
        { created := [], ret := none }) ∧
    (∀ err, searchDomainIndex domain = .error err →
      EnsureZoneExists searchDomainIndex createDomain domain =
        { created := [], ret := some err }) := by
  unfold EnsureZoneExists
  cases hs : searchDomainIndex domain with
  | error err => simp
  | ok r =>
    obtain ⟨ttl, ok⟩ := r
    cases ok <;> simp

/-- The scenario of C13: a zone that is not in the index is created and the error
of `createDomain` is returned; a zone that is in the index is left alone. -/
theorem EnsureZoneExists_creates_only_when_missing_witness :
    EnsureZoneExists (fun d => .ok (3600, decide (d = "example.com")))
        (fun _ => some "quota exceeded") "new.example.org" =
      { created := ["new.example.org"], ret := some "quota exceeded" } ∧
    EnsureZoneExists (fun d => .ok (3600, decide (d = "example.com")))
        (fun _ => some "quota exceeded") "example.com" =
      { created := [], ret := none } :=
  ⟨(EnsureZoneExists_creates_only_when_missing
      (fun d => .ok (3600, decide (d = "example.com")))
      (fun _ => some "quota exceeded") "new.example.org").2.1 3600 (by decide),
   (EnsureZoneExists_creates_only_when_missing
      (fun d => .ok (3600, decide (d = "example.com")))
      (fun _ => some "quota exceeded") "example.com").2.2.1 3600 (by decide)⟩

theorem trim_parts {α : Type} (p : α → Bool) (l : List α) :
    l = l.takeWhile p ++ (l.dropWhile p).rdropWhile p ++ (l.dropWhile p).rtakeWhile p := by
  have h2 : ∀ d : List α, d.rdropWhile p ++ d.rtakeWhile p = d := by
    intro d
    unfold List.rdropWhile List.rtakeWhile
    rw [← List.reverse_append, List.takeWhile_append_dropWhile, List.reverse_reverse]
  rw [List.append_assoc, h2, List.takeWhile_append_dropWhile]

theorem trim_nil_iff {α : Type} (p : α → Bool) (l : List α) :
    (l.dropWhile p).rdropWhile p = [] ↔ ∀ x ∈ l, p x = true := by
  rw [List.rdropWhile_eq_nil_iff]
  constructor
  · intro h
    have hd : l.dropWhile p = [] := by
      cases hl : l.dropWhile p with
      | nil => rfl
      | cons a t =>
        have h1 := List.head?_dropWhile_not p l
        rw [hl] at h1 h
        simp only [List.head?_cons, Option.all_some] at h1
        have := h a (List.mem_cons_self _ _)
        simp [this] at h1
    exact List.dropWhile_eq_nil_iff.mp hd
  · intro h
    rw [List.dropWhile_eq_nil_iff.mpr h]
    intro x hx
    cases hx

theorem trim_head {α : Type} (p : α → Bool) (l : List α) (c : α)
    (h : ((l.dropWhile p).rdropWhile p).head? = some c) : p c = false := by
  have hne : (l.dropWhile p).rdropWhile p ≠ [] := by
    intro e; rw [e] at h; cases h
  have hparts : (l.dropWhile p).rdropWhile p ++ (l.dropWhile p).rtakeWhile p =
      l.dropWhile p := by
    unfold List.rdropWhile List.rtakeWhile
    rw [← List.reverse_append, List.takeWhile_append_dropWhile, List.reverse_reverse]
  have h1 := List.head?_dropWhile_not p l
  rw [← hparts, List.head?_append_of_ne_nil _ hne, h] at h1
  simpa using h1

theorem trim_last {α : Type} (p : α → Bool) (l : List α) (c : α)
    (h : ((l.dropWhile p).rdropWhile p).getLast? = some c) : p c = false := by
  have hne : (l.dropWhile p).rdropWhile p ≠ [] := by
    intro e; rw [e] at h; cases h
  have h1 := List.rdropWhile_last_not p (l.dropWhile p) hne
  rw [List.getLast?_eq_getLast _ hne] at h
  rw [Option.some.inj h] at h1
  simpa using h1

/-- C14: `NewDeSec` requires the auth-token credential. It returns the error
`missing deSEC auth-token` and no provider if and only if `m["auth-token"]` is absent
or consists of white space only; otherwise it returns a provider, and no error,
whose token is `m["auth-token"]` without its leading and trailing white space: the
value is white space, the token, white space, and the token neither starts nor ends
with white space. -/
theorem NewDeSec_requires_token (m : String → Option String) (metadata : String) :
    (NewDeSec m metadata = .error "missing deSEC auth-token" ↔
      ∀ c ∈ ((m "auth-token").getD "").data, unicodeIsSpace c = true) ∧
    (m "auth-token" = none → NewDeSec m metadata = .error "missing deSEC auth-token") ∧
    ((∃ c ∈ ((m "auth-token").getD "").data, unicodeIsSpace c = false) →
      ∃ token : String, NewDeSec m metadata = .ok { token := token } ∧ token ≠ "" ∧
        (∃ before after, ((m "auth-token").getD "").data = before ++ token.data ++ after ∧
          (∀ c ∈ before, unicodeIsSpace c = true) ∧ (∀ c ∈ after, unicodeIsSpace c = true)) ∧
        (∀ c, token.data.head? = some c → unicodeIsSpace c = false) ∧
        (∀ c, token.data.getLast? = some c → unicodeIsSpace c = false)) := by
  have hnil := trim_nil_iff unicodeIsSpace ((m "auth-token").getD "").data
  have htok : TrimSpace ((m "auth-token").getD "") = "" ↔
      ∀ c ∈ ((m "auth-token").getD "").data, unicodeIsSpace c = true := by
    rw [← hnil]
    unfold TrimSpace
    constructor
    · intro h
      have := congrArg String.data h
      simpa using this
    · intro h
      rw [h]
  refine ⟨?_, ?_, ?_⟩
  · unfold NewDeSec
    by_cases ht : TrimSpace ((m "auth-token").getD "") = ""
    · simp only [ht, if_true, true_iff]
      exact htok.mp ht
    · simp only [ht, if_false]
      constructor
      · intro h; cases h
      · intro h
        exact absurd (htok.mpr h) ht
  · intro hm
    unfold NewDeSec
    rw [hm]
    rfl
  · intro hex
    obtain ⟨c0, hc0, hsp⟩ := hex
    have ht : TrimSpace ((m "auth-token").getD "") ≠ "" := by
      intro e
      have := htok.mp e c0 hc0
      rw [hsp] at this
      cases this
    refine ⟨TrimSpace ((m "auth-token").getD ""), ?_, ht, ?_, ?_, ?_⟩
    · unfold NewDeSec
      simp only [ht, if_false]
    · refine ⟨((m "auth-token").getD "").data.takeWhile unicodeIsSpace,
        (((m "auth-token").getD "").data.dropWhile unicodeIsSpace).rtakeWhile unicodeIsSpace,
        trim_parts unicodeIsSpace _, ?_, ?_⟩
      · intro c hc
        exact (List.mem_takeWhile_imp hc)
      · intro c hc
        exact List.mem_rtakeWhile_imp hc
    · intro c hc
      exact trim_head unicodeIsSpace _ c hc
    · intro c hc
      exact trim_last unicodeIsSpace _ c hc

/-- The scenario of C14: a token given with white space around it is stored without
it, and a credentials map without the key is refused. -/
theorem NewDeSec_requires_token_witness :
    NewDeSec (fun k => if k = "auth-token" then some " \tabc123\n" else none) "{}" =
      .ok { token := "abc123" } ∧
    NewDeSec (fun _ => none) "{}" = .error "missing deSEC auth-token" :=
  ⟨by decide, (NewDeSec_requires_token (fun _ => none) "{}").2.1 rfl⟩

/-! ## The result of GetZoneRecordsCorrections in terms of the collaborators -/

theorem GetZoneRecordsCorrections_payload (env : Collaborators) (heap : Heap)
    (dc : DomainConfig) (existing : List Ptr) (cs : Option (List Correction)) (cnt : Nat)
    (punycodeName : String) (keys : List (RecordKey × List String))
    (toReport : List String) (n : Nat)
    (h : (GetZoneRecordsCorrections env heap dc existing).ret = .ok (cs, cnt))
    (hA : env.ToASCII dc.Name = .ok punycodeName)
    (hD : env.ChangedGroups (GetZoneRecordsCorrections env heap dc existing).heap
      (GetZoneRecordsCorrections env heap dc existing).dc existing =
      .ok (keys, toReport, n)) :
    sliceElems cs = sliceElems (env.GenerateMessageCorrections toReport) ++
      (if keys.filterMap (GetZoneRecordsCorrections.payloadOf env
            (GetZoneRecordsCorrections env heap dc existing).heap
            (env.GroupedByKey (GetZoneRecordsCorrections env heap dc existing).heap
              (GetZoneRecordsCorrections env heap dc existing).dc.Records)
            punycodeName) = [] then []
       else [{ Msg := "Changes:\n" ++
                 String.join ((keys.flatMap (fun e => e.2)).map (fun m => m ++ "\n")),
               F := .upsertRR
                 (keys.filterMap (GetZoneRecordsCorrections.payloadOf env
                   (GetZoneRecordsCorrections env heap dc existing).heap
                   (env.GroupedByKey (GetZoneRecordsCorrections env heap dc existing).heap
                     (GetZoneRecordsCorrections env heap dc existing).dc.Records)
                   punycodeName))
                 punycodeName }]) := by
  obtain ⟨puny2, keys2, toReport2, n2, hA2, hD2, hafter⟩ :=
    GetZoneRecordsCorrections_inv env heap dc existing cs cnt h
  rw [hA] at hA2
  have hp : punycodeName = puny2 := Except.ok.inj hA2
  rw [hD] at hD2
  have hk := Except.ok.inj hD2
  have hk1 : keys = keys2 := (Prod.mk.inj hk).1
  have hk2 : toReport = toReport2 := (Prod.mk.inj (Prod.mk.inj hk).2).1
  have hk3 : n = n2 := (Prod.mk.inj (Prod.mk.inj hk).2).2
  rw [← hp, ← hk1, ← hk2, ← hk3] at hafter
  obtain ⟨st, hloop, hcs⟩ :=
    afterDiff_elems env _ _ punycodeName keys toReport n cs cnt hafter
  have hst := loop_eq env _ _ punycodeName keys st hloop
  rw [hcs, hst]
  rfl

theorem GetZoneRecordsCorrections_returns (env : Collaborators) (heap : Heap)
    (dc : DomainConfig) (existing : List Ptr) (punycodeName : String) (ttl : Nat)
    (found : Bool) (keys : List (RecordKey × List String)) (toReport : List String)
    (n : Nat)
    (hA : env.ToASCII dc.Name = .ok punycodeName)
    (hS : env.searchDomainIndex punycodeName = .ok (ttl, found))
    (hD : env.ChangedGroups (GetZoneRecordsCorrections env heap dc existing).heap
      (GetZoneRecordsCorrections env heap dc existing).dc existing =
      .ok (keys, toReport, n))
    (hok : ∀ e ∈ keys, GetZoneRecordsCorrections.keyOk env
      (GetZoneRecordsCorrections env heap dc existing).heap
      (env.GroupedByKey (GetZoneRecordsCorrections env heap dc existing).heap
        (GetZoneRecordsCorrections env heap dc existing).dc.Records) punycodeName e)
    (hne : ¬ (sliceLen (env.GenerateMessageCorrections toReport) = 0 ∧ keys.length = 0)) :
    (GetZoneRecordsCorrections env heap dc existing).ret =
      .ok (if keys.filterMap (GetZoneRecordsCorrections.payloadOf env
              (GetZoneRecordsCorrections env heap dc existing).heap
              (env.GroupedByKey (GetZoneRecordsCorrections env heap dc existing).heap
                (GetZoneRecordsCorrections env heap dc existing).dc.Records)
              punycodeName) = [] then env.GenerateMessageCorrections toReport
           else some (sliceElems (env.GenerateMessageCorrections toReport) ++
             [{ Msg := "Changes:\n" ++
                  String.join ((keys.flatMap (fun e => e.2)).map (fun m => m ++ "\n")),
                F := .upsertRR
                  (keys.filterMap (GetZoneRecordsCorrections.payloadOf env
                    (GetZoneRecordsCorrections env heap dc existing).heap
                    (env.GroupedByKey (GetZoneRecordsCorrections env heap dc existing).heap
                      (GetZoneRecordsCorrections env heap dc existing).dc.Records)
                    punycodeName))
                  punycodeName }]), n) := by
  have hstate := GetZoneRecordsCorrections_state env heap dc existing punycodeName ttl
    found hA hS
  rw [hstate.1, hstate.2.1] at hD hok
  rw [hstate.1, hstate.2.1]
  rw [GetZoneRecordsCorrections_ret env heap dc existing punycodeName ttl found _ _ _
    hA hS hD]
  generalize PrepDesiredRecords heap dc (if !found then 3600 else ttl) = prep at hok ⊢
  have hloop := loopFrom_of_keyOk env prep.heap (env.GroupedByKey prep.heap prep.dc.Records)
    punycodeName keys { rrs := [], buf := [] } hok
  simp only [GetZoneRecordsCorrections.afterDiff, GetZoneRecordsCorrections.loop, hloop,
    hne, if_false, List.nil_append, GetZoneRecordsCorrections.finish, LoopState.bufString]
  cases hr : keys.filterMap (GetZoneRecordsCorrections.payloadOf env prep.heap
      (env.GroupedByKey prep.heap prep.dc.Records) punycodeName) with
  | nil => simp
  | cons r t => simp

theorem GetZoneRecordsCorrections_diff_error (env : Collaborators) (heap : Heap)
    (dc : DomainConfig) (existing : List Ptr) (punycodeName : String) (ttl : Nat)
    (found : Bool) (err : String)
    (hA : env.ToASCII dc.Name = .ok punycodeName)
    (hS : env.searchDomainIndex punycodeName = .ok (ttl, found))
    (hD : env.ChangedGroups (GetZoneRecordsCorrections env heap dc existing).heap
      (GetZoneRecordsCorrections env heap dc existing).dc existing = .error err) :
    (GetZoneRecordsCorrections env heap dc existing).ret = .error (.error err) := by
  have hstate := GetZoneRecordsCorrections_state env heap dc existing punycodeName ttl
    found hA hS
  rw [hstate.1, hstate.2.1] at hD
  rw [GetZoneRecordsCorrections_ret_match env heap dc existing punycodeName ttl found hA hS,
    hD]

/-! ## Claims on what GetZoneRecordsCorrections hands to the diff and to the payload -/

/-- C16: `GetZoneRecordsCorrections` normalises before it diffs. When the zone name
converts to ASCII and the domain-index lookup succeeds, the record objects, `dc` and
the warnings after the call are those of `PrepDesiredRecords` with the TTL of the
index when the zone is found and 3600 when it is not, and every record of the
normalised list is not an ALIAS and has a TTL of at least that minimum. The diff is
computed from the normalised `dc`: its error on the normalised `dc` is the error
returned, and its result on the normalised `dc` decides the corrections. The grouped
desired records are computed from the normalised `dc.Records`: the payload of the
upsert is built, key by key, from `GroupedByKey` of the normalised list, both
whenever the call returns corrections and, as a result that the call does return,
whenever `recordsToNative` gives one record set for each changed key found in that
grouping. -/
theorem GetZoneRecordsCorrections_normalizes_first (env : Collaborators) (heap : Heap)
    (dc : DomainConfig) (existing : List Ptr) (punycodeName : String) (ttl : Nat)
    (found : Bool)
    (hA : env.ToASCII dc.Name = .ok punycodeName)
    (hS : env.searchDomainIndex punycodeName = .ok (ttl, found)) :
    (GetZoneRecordsCorrections env heap dc existing).heap =
      (PrepDesiredRecords heap dc (if found then ttl else 3600)).heap ∧
    (GetZoneRecordsCorrections env heap dc existing).dc =
      (PrepDesiredRecords heap dc (if found then ttl else 3600)).dc ∧
    (GetZoneRecordsCorrections env heap dc existing).log =
      (PrepDesiredRecords heap dc (if found then ttl else 3600)).log ∧
    (GetZoneRecordsCorrections env heap dc existing).ret =
      (match env.ChangedGroups (PrepDesiredRecords heap dc (if found then ttl else 3600)).heap
          (PrepDesiredRecords heap dc (if found then ttl else 3600)).dc existing with
       | .error e => .error (.error e)
       | .ok (keys, toReport, n) =>
         GetZoneRecordsCorrections.afterDiff env
           (PrepDesiredRecords heap dc (if found then ttl else 3600)).heap
           (PrepDesiredRecords heap dc (if found then ttl else 3600)).dc.Records
           punycodeName keys toReport n) ∧
    (∀ p ∈ (GetZoneRecordsCorrections env heap dc existing).dc.Records,
      ((GetZoneRecordsCorrections env heap dc existing).heap p).Type_ ≠ "ALIAS" ∧
      (if found then ttl else 3600) ≤
        ((GetZoneRecordsCorrections env heap dc existing).heap p).TTL) ∧
    (∀ err,
      env.ChangedGroups (PrepDesiredRecords heap dc (if found then ttl else 3600)).heap
        (PrepDesiredRecords heap dc (if found then ttl else 3600)).dc existing =
        .error err →
      (GetZoneRecordsCorrections env heap dc existing).ret = .error (.error err)) ∧
    (∀ keys toReport n cs cnt,
      env.ChangedGroups (PrepDesiredRecords heap dc (if found then ttl else 3600)).heap
        (PrepDesiredRecords heap dc (if found then ttl else 3600)).dc existing =
        .ok (keys, toReport, n) →
      (GetZoneRecordsCorrections env heap dc existing).ret = .ok (cs, cnt) →
      sliceElems cs = sliceElems (env.GenerateMessageCorrections toReport) ++
        (if keys.filterMap (GetZoneRecordsCorrections.payloadOf env
              (PrepDesiredRecords heap dc (if found then ttl else 3600)).heap
              (env.GroupedByKey
                (PrepDesiredRecords heap dc (if found then ttl else 3600)).heap
                (PrepDesiredRecords heap dc (if found then ttl else 3600)).dc.Records)
              punycodeName) = [] then []
         else [{ Msg := "Changes:\n" ++
                   String.join ((keys.flatMap (fun e => e.2)).map (fun m => m ++ "\n")),
                 F := .upsertRR
                   (keys.filterMap (GetZoneRecordsCorrections.payloadOf env
                     (PrepDesiredRecords heap dc (if found then ttl else 3600)).heap
                     (env.GroupedByKey
                       (PrepDesiredRecords heap dc (if found then ttl else 3600)).heap
                       (PrepDesiredRecords heap dc (if found then ttl else 3600)).dc.Records)
                     punycodeName))
                   punycodeName }])) ∧
    (∀ keys toReport n,
      env.ChangedGroups (PrepDesiredRecords heap dc (if found then ttl else 3600)).heap
        (PrepDesiredRecords heap dc (if found then ttl else 3600)).dc existing =
        .ok (keys, toReport, n) →
      (∀ e ∈ keys, ∀ group,
        env.GroupedByKey (PrepDesiredRecords heap dc (if found then ttl else 3600)).heap
          (PrepDesiredRecords heap dc (if found then ttl else 3600)).dc.Records e.1 =
          some group →
        (env.recordsToNative (PrepDesiredRecords heap dc (if found then ttl else 3600)).heap
          group punycodeName).length = 1) →
      ¬ (sliceLen (env.GenerateMessageCorrections toReport) = 0 ∧ keys.length = 0) →
      (GetZoneRecordsCorrections env heap dc existing).ret =
        .ok (if keys.filterMap (GetZoneRecordsCorrections.payloadOf env
                (PrepDesiredRecords heap dc (if found then ttl else 3600)).heap
                (env.GroupedByKey
                  (PrepDesiredRecords heap dc (if found then ttl else 3600)).heap
                  (PrepDesiredRecords heap dc (if found then ttl else 3600)).dc.Records)
                punycodeName) = [] then env.GenerateMessageCorrections toReport
             else some (sliceElems (env.GenerateMessageCorrections toReport) ++
               [{ Msg := "Changes:\n" ++
                    String.join ((keys.flatMap (fun e => e.2)).map (fun m => m ++ "\n")),
                  F := .upsertRR
                    (keys.filterMap (GetZoneRecordsCorrections.payloadOf env
                      (PrepDesiredRecords heap dc (if found then ttl else 3600)).heap
                      (env.GroupedByKey
                        (PrepDesiredRecords heap dc (if found then ttl else 3600)).heap
                        (PrepDesiredRecords heap dc (if found then ttl else 3600)).dc.Records)
                      punycodeName))
                    punycodeName }]), n)) := by
  have hm : (if !found then 3600 else ttl) = (if found then ttl else 3600) := by
    cases found <;> rfl
  have hstate := GetZoneRecordsCorrections_state env heap dc existing punycodeName ttl
    found hA hS
  have hret := GetZoneRecordsCorrections_ret_match env heap dc existing punycodeName ttl
    found hA hS
  rw [hm] at hstate hret
  refine ⟨hstate.1, hstate.2.1, hstate.2.2, hret, ?_, ?_, ?_, ?_⟩
  · intro p hp
    rw [hstate.2.1] at hp
    rw [hstate.1]
    have h := prep_ttl_ge heap dc _ p hp
    exact ⟨h.1, by rw [h.2]; exact Nat.le_max_right _ _⟩
  · intro err hD
    rw [← hstate.1, ← hstate.2.1] at hD
    exact GetZoneRecordsCorrections_diff_error env heap dc existing punycodeName ttl found
      err hA hS hD
  · intro keys toReport n cs cnt hD h
    rw [← hstate.1, ← hstate.2.1] at hD ⊢
    exact GetZoneRecordsCorrections_payload env heap dc existing cs cnt punycodeName keys
      toReport n h hA hD
  · intro keys toReport n hD hone hne
    rw [← hstate.1, ← hstate.2.1] at hD hone ⊢
    refine GetZoneRecordsCorrections_returns env heap dc existing punycodeName ttl found
      keys toReport n hA hS hD ?_ hne
    intro e he group hg
    have h1 := hone e he group hg
    exact ⟨by omega, fun _ => h1⟩

/-- The scenario of C16: the sample zone is known with minimum TTL 300 and desires
an A record with TTL 60 and an ALIAS record. The record set sent for the A record
has TTL 300, so it was grouped after the normalisation. -/
theorem GetZoneRecordsCorrections_normalizes_first_witness :
    (GetZoneRecordsCorrections
      (sampleEnv [(⟨"www.example.com", "A"⟩, ["+ CREATE www.example.com A 1.2.3.4"])] [])
      sampleHeap { Name := "example.com", Records := [0, 1] } []).ret =
      .ok (some [{ Msg := "Changes:\n+ CREATE www.example.com A 1.2.3.4\n",
                   F := .upsertRR
                     [{ Subname := "www", Records := some ["1.2.3.4"], TTL := 300,
                        Type_ := "A" }]
                     "example.com" }], 1) :=
  (GetZoneRecordsCorrections_normalizes_first
    (sampleEnv [(⟨"www.example.com", "A"⟩, ["+ CREATE www.example.com A 1.2.3.4"])] [])
    sampleHeap { Name := "example.com", Records := [0, 1] } [] "example.com" 300 true
    rfl rfl).2.2.2.2.2.2.2
    [(⟨"www.example.com", "A"⟩, ["+ CREATE www.example.com A 1.2.3.4"])] [] 1 rfl
    (by
      intro e he group hg
      rw [List.mem_singleton.mp he] at hg
      have hgroup : group = [0] := (Option.some.inj hg).symm
      rw [hgroup]
      decide)
    (by decide)

theorem payloadOf_absent (env : Collaborators) (heap : Heap)
    (desiredRecords : RecordKey → Option (List Ptr)) (punycodeName : String)
    (label : RecordKey) (msgs : List String) (hne : msgs ≠ [])
    (hd : desiredRecords label = none) :
    GetZoneRecordsCorrections.payloadOf env heap desiredRecords punycodeName (label, msgs) =
      some { Subname := if env.TrimDomainName label.NameFQDN punycodeName = "@" then ""
                        else env.TrimDomainName label.NameFQDN punycodeName,
             Records := some [],
             TTL := 3600,
             Type_ := label.Type_ } := by
  simp [GetZoneRecordsCorrections.payloadOf, GetZoneRecordsCorrections.rrOf, hd, hne,
    GetZoneRecordsCorrections.deleteRR]

/-- C10: a delete-only key becomes an empty-value-set upsert. For a key absent from
`desiredRecords`, the body of the loop on its first message always succeeds and
appends to the payload the record set with the type of the key, an allocated empty
`Records` list, TTL 3600 and as `Subname` the FQDN of the key trimmed relative to
the punycode zone name, the apex name `@` replaced by the empty string, and that
record set is in the payload whenever the loop over `keysToUpdate` returns. The
payload is what the call upserts: whenever `GetZoneRecordsCorrections` returns, its
last correction is the upsert and its payload holds that record set for every
changed key with a message that is absent from the grouped normalised records; and
when every changed key is absent from them and one has a message, the call does
return, with the upsert of exactly these record sets. -/
theorem loop_delete_only_key (env : Collaborators) (heap : Heap)
    (desiredRecords : RecordKey → Option (List Ptr)) (punycodeName : String) :
    (∀ st label msg rest, desiredRecords label = none →
      GetZoneRecordsCorrections.key env heap desiredRecords punycodeName st
          (label, msg :: rest) =
        .ok { rrs := st.rrs ++
                [{ Subname := if env.TrimDomainName label.NameFQDN punycodeName = "@" then ""
                              else env.TrimDomainName label.NameFQDN punycodeName,
                   Records := some [],
                   TTL := 3600,
                   Type_ := label.Type_ }],
              buf := st.buf ++ msg :: rest }) ∧
    (∀ keys st label msgs,
      GetZoneRecordsCorrections.loop env heap desiredRecords punycodeName keys = .ok st →
      (label, msgs) ∈ keys → msgs ≠ [] → desiredRecords label = none →
      ({ Subname := if env.TrimDomainName label.NameFQDN punycodeName = "@" then ""
                    else env.TrimDomainName label.NameFQDN punycodeName,
         Records := some [],
         TTL := 3600,
         Type_ := label.Type_ } : resourceRecord) ∈ st.rrs) ∧
    (∀ dc existing cs cnt keys toReport n label msgs,
      (GetZoneRecordsCorrections env heap dc existing).ret = .ok (cs, cnt) →
      env.ToASCII dc.Name = .ok punycodeName →
      env.ChangedGroups (GetZoneRecordsCorrections env heap dc existing).heap
        (GetZoneRecordsCorrections env heap dc existing).dc existing =
        .ok (keys, toReport, n) →
      (label, msgs) ∈ keys → msgs ≠ [] →
      env.GroupedByKey (GetZoneRecordsCorrections env heap dc existing).heap
        (GetZoneRecordsCorrections env heap dc existing).dc.Records label = none →
      ∃ rrs,
        sliceElems cs = sliceElems (env.GenerateMessageCorrections toReport) ++
          [{ Msg := "Changes:\n" ++
               String.join ((keys.flatMap (fun e => e.2)).map (fun m => m ++ "\n")),
             F := .upsertRR rrs punycodeName }] ∧
        ({ Subname := if env.TrimDomainName label.NameFQDN punycodeName = "@" then ""
                      else env.TrimDomainName label.NameFQDN punycodeName,
           Records := some [],
           TTL := 3600,
           Type_ := label.Type_ } : resourceRecord) ∈ rrs) ∧
    (∀ dc existing ttl found keys toReport n,
      env.ToASCII dc.Name = .ok punycodeName →
      env.searchDomainIndex punycodeName = .ok (ttl, found) →
      env.ChangedGroups (GetZoneRecordsCorrections env heap dc existing).heap
        (GetZoneRecordsCorrections env heap dc existing).dc existing =
        .ok (keys, toReport, n) →
      (∀ e ∈ keys,
        env.GroupedByKey (GetZoneRecordsCorrections env heap dc existing).heap
          (GetZoneRecordsCorrections env heap dc existing).dc.Records e.1 = none) →
      (∃ e ∈ keys, e.2 ≠ []) →
      (GetZoneRecordsCorrections env heap dc existing).ret =
        .ok (some (sliceElems (env.GenerateMessageCorrections toReport) ++
          [{ Msg := "Changes:\n" ++
               String.join ((keys.flatMap (fun e => e.2)).map (fun m => m ++ "\n")),
             F := .upsertRR
               (keys.filterMap (fun e =>
                 if e.2 = [] then none
                 else some
                   { Subname := if env.TrimDomainName e.1.NameFQDN punycodeName = "@" then ""
                                else env.TrimDomainName e.1.NameFQDN punycodeName,
                     Records := some [],
                     TTL := 3600,
                     Type_ := e.1.Type_ }))
               punycodeName }]), n)) := by
  refine ⟨?_, ?_, ?_, ?_⟩
  · intro st label msg rest hd
    have hok : GetZoneRecordsCorrections.keyOk env heap desiredRecords punycodeName
        (label, msg :: rest) := by
      intro group hg
      rw [hd] at hg
      cases hg
    rw [key_of_keyOk env heap desiredRecords punycodeName st _ hok]
    simp [GetZoneRecordsCorrections.payloadOf, GetZoneRecordsCorrections.rrOf, hd,
      GetZoneRecordsCorrections.deleteRR]
  · intro keys st label msgs hloop hmem hne hd
    rw [loop_eq env heap desiredRecords punycodeName keys st hloop]
    simp only [List.mem_filterMap]
    exact ⟨(label, msgs), hmem,
      payloadOf_absent env heap desiredRecords punycodeName label msgs hne hd⟩
  · intro dc existing cs cnt keys toReport n label msgs h hA hD hmem hne hd
    have hpay := GetZoneRecordsCorrections_payload env heap dc existing cs cnt
      punycodeName keys toReport n h hA hD
    have hin : ({ Subname := if env.TrimDomainName label.NameFQDN punycodeName = "@" then ""
                    else env.TrimDomainName label.NameFQDN punycodeName,
                  Records := some [],
                  TTL := 3600,
                  Type_ := label.Type_ } : resourceRecord) ∈
        keys.filterMap (GetZoneRecordsCorrections.payloadOf env
          (GetZoneRecordsCorrections env heap dc existing).heap
          (env.GroupedByKey (GetZoneRecordsCorrections env heap dc existing).heap
            (GetZoneRecordsCorrections env heap dc existing).dc.Records) punycodeName) := by
      rw [List.mem_filterMap]
      exact ⟨(label, msgs), hmem, payloadOf_absent env _ _ punycodeName label msgs hne hd⟩
    have hnil : keys.filterMap (GetZoneRecordsCorrections.payloadOf env
          (GetZoneRecordsCorrections env heap dc existing).heap
          (env.GroupedByKey (GetZoneRecordsCorrections env heap dc existing).heap
            (GetZoneRecordsCorrections env heap dc existing).dc.Records) punycodeName) ≠ [] :=
      List.ne_nil_of_mem hin
    rw [if_neg hnil] at hpay
    exact ⟨_, hpay, hin⟩
  · intro dc existing ttl found keys toReport n hA hS hD habs hex
    have hok : ∀ e ∈ keys, GetZoneRecordsCorrections.keyOk env
        (GetZoneRecordsCorrections env heap dc existing).heap
        (env.GroupedByKey (GetZoneRecordsCorrections env heap dc existing).heap
          (GetZoneRecordsCorrections env heap dc existing).dc.Records) punycodeName e := by
      intro e he group hg
      rw [habs e he] at hg
      cases hg
    have hne : ¬ (sliceLen (env.GenerateMessageCorrections toReport) = 0 ∧
        keys.length = 0) := by
      obtain ⟨e, he, _⟩ := hex
      intro hc
      rw [List.length_eq_zero.mp hc.2] at he
      cases he
    have hret := GetZoneRecordsCorrections_returns env heap dc existing punycodeName ttl
      found keys toReport n hA hS hD hok hne
    have hfm : keys.filterMap (GetZoneRecordsCorrections.payloadOf env
          (GetZoneRecordsCorrections env heap dc existing).heap
          (env.GroupedByKey (GetZoneRecordsCorrections env heap dc existing).heap
            (GetZoneRecordsCorrections env heap dc existing).dc.Records) punycodeName) =
        keys.filterMap (fun e =>
          if e.2 = [] then none
          else some
            { Subname := if env.TrimDomainName e.1.NameFQDN punycodeName = "@" then ""
                         else env.TrimDomainName e.1.NameFQDN punycodeName,
              Records := some [],
              TTL := 3600,
              Type_ := e.1.Type_ }) := by
      apply List.filterMap_congr
      intro e he
      by_cases hm : e.2 = []
      · simp [GetZoneRecordsCorrections.payloadOf, hm]
      · rw [if_neg hm]
        exact payloadOf_absent env _ _ punycodeName e.1 e.2 hm (habs e he)
    rw [hfm] at hret
    obtain ⟨e, he, hm⟩ := hex
    have hnil : keys.filterMap (fun e =>
          if e.2 = [] then none
          else some
            ({ Subname := if env.TrimDomainName e.1.NameFQDN punycodeName = "@" then ""
                          else env.TrimDomainName e.1.NameFQDN punycodeName,
               Records := some [],
               TTL := 3600,
               Type_ := e.1.Type_ } : resourceRecord)) ≠ [] := by
      apply List.ne_nil_of_mem
      rw [List.mem_filterMap]
      exact ⟨e, he, by rw [if_neg hm]⟩
    rw [if_neg hnil] at hret
    exact hret

/-- The scenario of C10: the sample zone no longer desires `old.example.com A` nor
the TXT record set at the apex. The call returns one correction, the upsert of the
two empty record sets, the one of the apex with the empty subname. -/
theorem loop_delete_only_key_witness :
    (GetZoneRecordsCorrections
      (sampleEnv [(⟨"old.example.com", "A"⟩, ["- DELETE old.example.com A"]),
                  (⟨"example.com", "TXT"⟩, ["- DELETE example.com TXT", "second line"])] [])
      sampleHeap { Name := "example.com", Records := [0, 4, 5] } []).ret =
      .ok (some [{ Msg := "Changes:\n- DELETE old.example.com A\n- DELETE example.com TXT\nsecond line\n",
                   F := .upsertRR
                     [{ Subname := "old", Records := some [], TTL := 3600, Type_ := "A" },
                      { Subname := "", Records := some [], TTL := 3600, Type_ := "TXT" }]
                     "example.com" }], 2) :=
  (loop_delete_only_key
    (sampleEnv [(⟨"old.example.com", "A"⟩, ["- DELETE old.example.com A"]),
                (⟨"example.com", "TXT"⟩, ["- DELETE example.com TXT", "second line"])] [])
    sampleHeap (fun _ => none) "example.com").2.2.2
    { Name := "example.com", Records := [0, 4, 5] } [] 300 true
    [(⟨"old.example.com", "A"⟩, ["- DELETE old.example.com A"]),
     (⟨"example.com", "TXT"⟩, ["- DELETE example.com TXT", "second line"])] [] 2
    rfl rfl rfl (by decide) (by decide)

/-- C4, amended: the gate of `PrepDesiredRecords` is the ALIAS type alone.
`CanUseAlias` is declared Unimplemented, and the records kept are exactly the input
records whose type is not ALIAS, in their order, whatever `features` says of their
type. So no desired ALIAS record reaches the diff or an upserted record set: when the
zone name converts and the index lookup succeeds, `GetZoneRecordsCorrections` hands
the diff the `dc` whose records are the input records of another type, none of them
an ALIAS (the error of the diff on that `dc` is the error returned, its result on
that `dc` decides the corrections); the payload of the upsert is built, key by key,
from `GroupedByKey` of that list, a key it does not hold giving a deletion; and a
group made of records of that list holds no ALIAS record. -/
theorem PrepDesiredRecords_gates_alias_only (heap : Heap) (dc : DomainConfig)
    (minTTL : Nat) :
    (featuresNote .CanUseAlias).map (fun n => (n.HasFeature, n.Unimplemented))
      = some (false, true) ∧
    (PrepDesiredRecords heap dc minTTL).dc.Records =
      dc.Records.filter (fun p => decide ((heap p).Type_ ≠ "ALIAS")) ∧
    (∀ p, p ∈ (PrepDesiredRecords heap dc minTTL).dc.Records ↔
      p ∈ dc.Records ∧ (heap p).Type_ ≠ "ALIAS") ∧
    (∀ (env : Collaborators) (existing : List Ptr) (punycodeName : String) (ttl : Nat)
      (found : Bool),
      env.ToASCII dc.Name = .ok punycodeName →
      env.searchDomainIndex punycodeName = .ok (ttl, found) →
      (GetZoneRecordsCorrections env heap dc existing).dc.Records =
        dc.Records.filter (fun p => decide ((heap p).Type_ ≠ "ALIAS")) ∧
      (∀ p ∈ (GetZoneRecordsCorrections env heap dc existing).dc.Records,
        ((GetZoneRecordsCorrections env heap dc existing).heap p).Type_ ≠ "ALIAS") ∧
      (∀ err,
        env.ChangedGroups (GetZoneRecordsCorrections env heap dc existing).heap
          (GetZoneRecordsCorrections env heap dc existing).dc existing = .error err →
        (GetZoneRecordsCorrections env heap dc existing).ret = .error (.error err)) ∧
      (∀ keys toReport n cs cnt,
        env.ChangedGroups (GetZoneRecordsCorrections env heap dc existing).heap
          (GetZoneRecordsCorrections env heap dc existing).dc existing =
          .ok (keys, toReport, n) →
        (GetZoneRecordsCorrections env heap dc existing).ret = .ok (cs, cnt) →
        sliceElems cs = sliceElems (env.GenerateMessageCorrections toReport) ++
          (if keys.filterMap (fun e =>
                if e.2 = [] then none
                else
                  match env.GroupedByKey
                    (GetZoneRecordsCorrections env heap dc existing).heap
                    (GetZoneRecordsCorrections env heap dc existing).dc.Records e.1 with
                  | none => some (GetZoneRecordsCorrections.deleteRR env punycodeName e.1)
                  | some group =>
                    (env.recordsToNative
                      (GetZoneRecordsCorrections env heap dc existing).heap group
                      punycodeName).head?) = [] then []
           else [{ Msg := "Changes:\n" ++
                     String.join ((keys.flatMap (fun e => e.2)).map (fun m => m ++ "\n")),
                   F := .upsertRR
                     (keys.filterMap (fun e =>
                       if e.2 = [] then none
                       else
                         match env.GroupedByKey
                           (GetZoneRecordsCorrections env heap dc existing).heap
                           (GetZoneRecordsCorrections env heap dc existing).dc.Records
                           e.1 with
                         | none =>
                           some (GetZoneRecordsCorrections.deleteRR env punycodeName e.1)
                         | some group =>
                           (env.recordsToNative
                             (GetZoneRecordsCorrections env heap dc existing).heap group
                             punycodeName).head?))
                     punycodeName }])) ∧
      (∀ label group,
        env.GroupedByKey (GetZoneRecordsCorrections env heap dc existing).heap
          (GetZoneRecordsCorrections env heap dc existing).dc.Records label = some group →
        (∀ q ∈ group, q ∈ (GetZoneRecordsCorrections env heap dc existing).dc.Records) →
        ∀ q ∈ group,
          ((GetZoneRecordsCorrections env heap dc existing).heap q).Type_ ≠ "ALIAS")) := by
  refine ⟨by decide, prep_records heap dc minTTL, ?_, ?_⟩
  · intro p
    rw [prep_records, List.mem_filter]
    simp
  · intro env existing punycodeName ttl found hA hS
    have hstate := GetZoneRecordsCorrections_state env heap dc existing punycodeName ttl
      found hA hS
    have hnoalias : ∀ p ∈ (GetZoneRecordsCorrections env heap dc existing).dc.Records,
        ((GetZoneRecordsCorrections env heap dc existing).heap p).Type_ ≠ "ALIAS" := by
      intro p hp
      rw [hstate.2.1] at hp
      rw [hstate.1]
      exact (prep_ttl_ge heap dc _ p hp).1
    refine ⟨?_, hnoalias, ?_, ?_, ?_⟩
    · rw [hstate.2.1, prep_records]
    · intro err hD
      exact GetZoneRecordsCorrections_diff_error env heap dc existing punycodeName ttl
        found err hA hS hD
    · intro keys toReport n cs cnt hD h
      have hpay := GetZoneRecordsCorrections_payload env heap dc existing cs cnt
        punycodeName keys toReport n h hA hD
      have hfm : GetZoneRecordsCorrections.payloadOf env
            (GetZoneRecordsCorrections env heap dc existing).heap
            (env.GroupedByKey (GetZoneRecordsCorrections env heap dc existing).heap
              (GetZoneRecordsCorrections env heap dc existing).dc.Records) punycodeName =
          (fun e =>
            if e.2 = [] then none
            else
              match env.GroupedByKey
                (GetZoneRecordsCorrections env heap dc existing).heap
                (GetZoneRecordsCorrections env heap dc existing).dc.Records e.1 with
              | none => some (GetZoneRecordsCorrections.deleteRR env punycodeName e.1)
              | some group =>
                (env.recordsToNative
                  (GetZoneRecordsCorrections env heap dc existing).heap group
                  punycodeName).head?) := by
        funext e
        unfold GetZoneRecordsCorrections.payloadOf GetZoneRecordsCorrections.rrOf
        rfl
      rw [hfm] at hpay
      exact hpay
    · intro label group _ hsub q hq
      exact hnoalias q (hsub q hq)

/-- The scenario of C4, amended: the sample zone desires an A record and an ALIAS
record; the `dc` that the diff receives holds the A record alone. -/
theorem PrepDesiredRecords_gates_alias_only_witness :
    (GetZoneRecordsCorrections (sampleEnv [] []) sampleHeap
      { Name := "example.com", Records := [0, 1] } []).dc.Records = [0] :=
  ((PrepDesiredRecords_gates_alias_only sampleHeap
      { Name := "example.com", Records := [0, 1] } 300).2.2.2
    (sampleEnv [] []) [] "example.com" 300 true rfl rfl).1

end Desec

namespace Generate

open Desec

/-! ## Claims on featureEmoji and matrixData -/

/-- C15: `featureEmoji` is a total three-way classification. It returns the check
mark exactly when the entry is present with `HasFeature` set (whatever
`Unimplemented` is), the cross exactly when the entry is present with neither
`HasFeature` nor `Unimplemented` set, and the question mark otherwise, that is, when
the entry is absent or is present with `HasFeature` unset and `Unimplemented` set. -/
theorem featureEmoji_classifies (featureMap : FeatureMap) (featureName : String) :
    (featureEmoji featureMap featureName = "✅" ↔
      ∃ note, featureMap featureName = some note ∧ note.HasFeature = true) ∧
    (featureEmoji featureMap featureName = "❌" ↔
      ∃ note, featureMap featureName = some note ∧ note.HasFeature = false ∧
        note.Unimplemented = false) ∧
    (featureEmoji featureMap featureName = "❔" ↔
      featureMap featureName = none ∨
      ∃ note, featureMap featureName = some note ∧ note.HasFeature = false ∧
        note.Unimplemented = true) ∧
    (featureEmoji featureMap featureName = "✅" ∨
      featureEmoji featureMap featureName = "❌" ∨
      featureEmoji featureMap featureName = "❔") := by
  unfold featureEmoji
  cases h : featureMap featureName with
  | none =>
    refine ⟨?_, ?_, ?_, ?_⟩
    · simp
    · simp
    · simp
    · simp
  | some note =>
    obtain ⟨hf, un, cm⟩ := note
    cases hf <;> cases un <;> simp

/-- The scenario of C15 on the deSEC provider: CAA is rendered as supported, the
official support as not supported, ALIAS (unimplemented) and SOA (no entry) as
unknown. -/
theorem featureEmoji_classifies_witness :
    featureEmoji (matrixData.featureMap sampleRegistry "DESEC")
      matrixData.DomainModifierCaa = "✅" ∧
    featureEmoji (matrixData.featureMap sampleRegistry "DESEC")
      matrixData.OfficialSupport = "❌" ∧
    featureEmoji (matrixData.featureMap sampleRegistry "DESEC")
      matrixData.DomainModifierAlias = "❔" ∧
    featureEmoji (matrixData.featureMap sampleRegistry "DESEC")
      matrixData.DomainModifierSoa = "❔" :=
  ⟨(featureEmoji_classifies _ _).1.mpr ⟨Can "", by decide, rfl⟩,
   by decide, by decide, by decide⟩

theorem set_self (featureMap : FeatureMap) (name : String) (note : DocumentationNote) :
    featureMap.set name note name = some note := by
  simp [FeatureMap.set]

theorem set_other (featureMap : FeatureMap) (name n : String) (note : DocumentationNote)
    (h : n ≠ name) : featureMap.set name note n = featureMap n := by
  simp [FeatureMap.set, h]

theorem SetSimple_other (featureMap : FeatureMap) (name n : String) (unknownsAllowed : Bool)
    (f : Unit → Bool) (h : n ≠ name) :
    featureMap.SetSimple name unknownsAllowed f n = featureMap n := by
  unfold FeatureMap.SetSimple
  split
  · exact set_other _ _ _ _ h
  · split
    · exact set_other _ _ _ _ h
    · rfl

theorem setCapability_other (reg : Registry) (providerName : String)
    (providerNotes : Capability → Option DocumentationNote) (featureMap : FeatureMap)
    (featureName n : String) (capability : Capability) (h : n ≠ featureName) :
    matrixData.setCapability reg providerName providerNotes featureMap featureName
      capability n = featureMap n := by
  unfold matrixData.setCapability
  cases providerNotes capability with
  | some note => exact set_other _ _ _ _ h
  | none => exact SetSimple_other _ _ _ _ _ h

theorem setDocumentation_other (providerNotes : Capability → Option DocumentationNote)
    (featureMap : FeatureMap) (featureName n : String) (capability : Capability)
    (defaultNo : Bool) (h : n ≠ featureName) :
    matrixData.setDocumentation providerNotes featureMap featureName capability defaultNo n =
      featureMap n := by
  unfold matrixData.setDocumentation
  cases providerNotes capability with
  | some note => exact set_other _ _ _ _ h
  | none =>
    cases defaultNo with
    | true => exact set_other _ _ _ _ h
    | false => rfl

theorem setCapability_self (reg : Registry) (providerName : String)
    (providerNotes : Capability → Option DocumentationNote) (featureMap : FeatureMap)
    (featureName : String) (capability : Capability) :
    matrixData.setCapability reg providerName providerNotes featureMap featureName
      capability featureName =
      match providerNotes capability with
      | some note => some note
      | none =>
        if reg.ProviderHasCapability providerName capability then
          some { HasFeature := true, Unimplemented := false, Comment := "" }
        else featureMap featureName := by
  unfold matrixData.setCapability
  cases providerNotes capability with
  | some note => simp [set_self]
  | none =>
    cases h : reg.ProviderHasCapability providerName capability <;>
      simp [FeatureMap.SetSimple, h, set_self]

theorem setDocumentation_self (providerNotes : Capability → Option DocumentationNote)
    (featureMap : FeatureMap) (featureName : String) (capability : Capability)
    (defaultNo : Bool) :
    matrixData.setDocumentation providerNotes featureMap featureName capability defaultNo
      featureName =
      match providerNotes capability with
      | some note => some note
      | none =>
        if defaultNo then some { HasFeature := false, Unimplemented := false, Comment := "" }
        else featureMap featureName := by
  unfold matrixData.setDocumentation
  cases providerNotes capability with
  | some note => simp [set_self]
  | none => cases defaultNo <;> simp [set_self]

theorem featureMap_capability (reg : Registry) (providerName featureName : String)
    (capability : Capability)
    (hmem : (featureName, capability) ∈ matrixData.capabilityCalls) :
    matrixData.featureMap reg providerName featureName =
      match matrixData.providerNotes reg providerName capability with
      | some note => some note
      | none =>
        if reg.ProviderHasCapability providerName capability then
          some { HasFeature := true, Unimplemented := false, Comment := "" }
        else none := by
  simp only [matrixData.capabilityCalls, List.mem_cons, List.mem_singleton,
    Prod.mk.injEq, List.not_mem_nil, or_false] at hmem
  rcases hmem with h | h | h | h | h | h | h | h | h | h | h | h | h | h | h | h | h | h <;>
    obtain ⟨rfl, rfl⟩ := h <;>
    simp (disch := decide) only [matrixData.featureMap, setCapability_other,
      setDocumentation_other, SetSimple_other, setCapability_self, FeatureMap.empty]

theorem featureMap_documentation (reg : Registry) (providerName featureName : String)
    (capability : Capability) (defaultNo : Bool)
    (hmem : (featureName, capability, defaultNo) ∈ matrixData.documentationCalls) :
    matrixData.featureMap reg providerName featureName =
      match matrixData.providerNotes reg providerName capability with
      | some note => some note
      | none =>
        if defaultNo then some { HasFeature := false, Unimplemented := false, Comment := "" }
        else none := by
  simp only [matrixData.documentationCalls, List.mem_cons, List.mem_singleton,
    Prod.mk.injEq, List.not_mem_nil, or_false] at hmem
  rcases hmem with h | h | h <;>
    obtain ⟨rfl, rfl, rfl⟩ := h <;>
    simp (disch := decide) only [matrixData.featureMap, setCapability_other,
      setDocumentation_other, SetSimple_other, setDocumentation_self, FeatureMap.empty]

theorem fold_providers (reg : Registry) (names : List String) (matrix : FeatureMatrix)
    (n : String) :
    (names.foldl
      (fun matrix providerName =>
        { matrix with
          Providers := fun n =>
            if n = providerName then some (matrixData.featureMap reg providerName)
            else matrix.Providers n })
      matrix).Providers n =
      if n ∈ names then some (matrixData.featureMap reg n) else matrix.Providers n := by
  induction names generalizing matrix with
  | nil => simp
  | cons a t ih =>
    rw [List.foldl_cons, ih]
    by_cases hn : n ∈ t
    · simp [hn]
    · by_cases ha : n = a
      · subst ha; simp [hn]
      · simp [hn, ha]

theorem matrixData_providers (reg : Registry) (enumerate : List String → List String)
    (providerName : String) :
    (matrixData reg enumerate).Providers providerName =
      if providerName ∈ allProviderNames reg enumerate
      then some (matrixData.featureMap reg providerName) else none := by
  unfold matrixData
  simp only [fold_providers]

/-- C11 as stated fails: the deSEC provider has no note for `CanUseSOA` and
`ProviderHasCapability` is false for it, yet its feature map has no entry for SOA
and `featureEmoji` renders the question mark, not the cross. -/
theorem matrixData_soa_counterexample :
    matrixData.providerNotes sampleRegistry "DESEC" .CanUseSOA = none ∧
    sampleRegistry.ProviderHasCapability "DESEC" .CanUseSOA = false ∧
    (matrixData.DomainModifierSoa, Capability.CanUseSOA) ∈ matrixData.capabilityCalls ∧
    ((matrixData sampleRegistry id).Providers "DESEC").map
        (fun featureMap => (featureMap matrixData.DomainModifierSoa,
          featureEmoji featureMap matrixData.DomainModifierSoa)) =
      some (none, "❔") := by
  decide

/-- C11, amended: a capability that is not asserted is unknown in the matrix. For a
provider of the matrix and a capability resolved through `setCapability`, when the
provider has no note for the capability and `ProviderHasCapability` is false, the
feature map of the provider has no entry for the feature and `featureEmoji` renders
the question mark. -/
theorem matrixData_unasserted_is_unknown (reg : Registry)
    (enumerate : List String → List String) (providerName featureName : String)
    (capability : Capability)
    (hp : providerName ∈ allProviderNames reg enumerate)
    (hmem : (featureName, capability) ∈ matrixData.capabilityCalls)
    (hnote : matrixData.providerNotes reg providerName capability = none)
    (hcap : reg.ProviderHasCapability providerName capability = false) :
    ∃ featureMap, (matrixData reg enumerate).Providers providerName = some featureMap ∧
      featureMap featureName = none ∧ featureEmoji featureMap featureName = "❔" := by
  refine ⟨matrixData.featureMap reg providerName, ?_, ?_, ?_⟩
  · rw [matrixData_providers, if_pos hp]
  · rw [featureMap_capability reg providerName featureName capability hmem, hnote]
    simp [hcap]
  · unfold featureEmoji
    rw [featureMap_capability reg providerName featureName capability hmem, hnote]
    simp [hcap]

/-- The scenario of C11, amended: DNAME, which deSEC does not assert, has no entry
and is rendered as unknown. -/
theorem matrixData_unasserted_is_unknown_witness :
    ∃ featureMap, (matrixData sampleRegistry id).Providers "DESEC" = some featureMap ∧
      featureMap matrixData.DomainModifierDname = none ∧
      featureEmoji featureMap matrixData.DomainModifierDname = "❔" :=
  matrixData_unasserted_is_unknown sampleRegistry id "DESEC" matrixData.DomainModifierDname
    .CanUseDNAME (by decide) (by decide) (by decide) (by decide)

/-- C12: an explicit note overrides the capability probe. For a provider of the
matrix and every call of `setCapability` or `setDocumentation`, when the provider
has a note for the capability the entry of the feature is that note, whatever
`ProviderHasCapability` returns; when it has none, the entry is decided by the probe
for `setCapability` (set when the probe is true, left absent otherwise) and by the
flag `defaultNo` for `setDocumentation`. -/
theorem matrixData_note_overrides_probe (reg : Registry)
    (enumerate : List String → List String) (providerName : String)
    (hp : providerName ∈ allProviderNames reg enumerate) :
    ∃ featureMap, (matrixData reg enumerate).Providers providerName = some featureMap ∧
      (∀ featureName capability note,
        (featureName, capability) ∈ matrixData.capabilityCalls →
        matrixData.providerNotes reg providerName capability = some note →
        featureMap featureName = some note) ∧
      (∀ featureName capability defaultNo note,
        (featureName, capability, defaultNo) ∈ matrixData.documentationCalls →
        matrixData.providerNotes reg providerName capability = some note →
        featureMap featureName = some note) ∧
      (∀ featureName capability,
        (featureName, capability) ∈ matrixData.capabilityCalls →
        matrixData.providerNotes reg providerName capability = none →
        featureMap featureName =
          if reg.ProviderHasCapability providerName capability then
            some { HasFeature := true, Unimplemented := false, Comment := "" }
          else none) ∧
      (∀ featureName capability defaultNo,
        (featureName, capability, defaultNo) ∈ matrixData.documentationCalls →
        matrixData.providerNotes reg providerName capability = none →
        featureMap featureName =
          if defaultNo then some { HasFeature := false, Unimplemented := false, Comment := "" }
          else none) := by
  refine ⟨matrixData.featureMap reg providerName, ?_, ?_, ?_, ?_, ?_⟩
  · rw [matrixData_providers, if_pos hp]
  · intro featureName capability note hmem hnote
    rw [featureMap_capability reg providerName featureName capability hmem, hnote]
  · intro featureName capability defaultNo note hmem hnote
    rw [featureMap_documentation reg providerName featureName capability defaultNo hmem,
      hnote]
  · intro featureName capability hmem hnote
    rw [featureMap_capability reg providerName featureName capability hmem, hnote]
  · intro featureName capability defaultNo hmem hnote
    rw [featureMap_documentation reg providerName featureName capability defaultNo hmem,
      hnote]

/-- The scenario of C12: a registry in which the probe asserts ALIAS for the deSEC
provider still shows the note of `features`, which says Unimplemented. -/
theorem matrixData_note_overrides_probe_witness :
    ∃ featureMap,
      (matrixData { sampleRegistry with ProviderHasCapability := fun _ _ => true } id).Providers
        "DESEC" = some featureMap ∧
      featureMap matrixData.DomainModifierAlias = some (Unimplemented
        "Apex aliasing is supported via new SVCB and HTTPS record types. For details, check the deSEC docs.") :=
  match matrixData_note_overrides_probe
    { sampleRegistry with ProviderHasCapability := fun _ _ => true } id "DESEC"
    (by decide) with
  | ⟨featureMap, h1, h2, _⟩ =>
    ⟨featureMap, h1, h2 matrixData.DomainModifierAlias .CanUseAlias _ (by decide) (by decide)⟩

/-! ## Claims on allProviderNames -/

theorem lessChars_iff (s t : List Char) : lessChars s t = true ↔ s < t := by
  induction s generalizing t with
  | nil =>
    cases t with
    | nil => simp [lessChars]
    | cons b t => simpa [lessChars] using List.Lex.nil
  | cons a s ih =>
    cases t with
    | nil => simp [lessChars]
    | cons b t =>
      simp only [lessChars, Bool.or_eq_true, decide_eq_true_eq, Bool.and_eq_true, ih]
      constructor
      · rintro (h | ⟨rfl, h⟩)
        · exact List.Lex.rel h
        · exact List.Lex.cons h
      · intro h
        cases h with
        | rel h => exact Or.inl h
        | cons h => exact Or.inr ⟨rfl, h⟩

theorem stringLess_iff (a b : String) : stringLess a b = true ↔ a < b := by
  rw [String.lt_iff_toList_lt]
  exact lessChars_iff a.data b.data

theorem stringLE_iff (a b : String) : stringLess b a = false ↔ a ≤ b := by
  rw [← not_lt, ← stringLess_iff]
  simp

theorem stringLE_total : IsTotal String (fun a b => stringLess b a = false) :=
  ⟨fun a b => by simp only [stringLE_iff]; exact le_total a b⟩

theorem stringLE_trans : IsTrans String (fun a b => stringLess b a = false) :=
  ⟨fun a b c => by simp only [stringLE_iff]; exact le_trans⟩

theorem stringLE_antisymm : IsAntisymm String (fun a b => stringLess b a = false) :=
  ⟨fun a b => by simp only [stringLE_iff]; exact le_antisymm⟩

theorem sortStrings_sorted (l : List String) :
    (sortStrings l).Sorted (fun a b => stringLess b a = false) :=
  @List.sorted_insertionSort _ _ _ stringLE_total stringLE_trans l

theorem sortStrings_perm (l : List String) : (sortStrings l).Perm l :=
  List.perm_insertionSort _ l

theorem mem_fold_add (l : List (String × Bool)) (keys : List String) (n : String) :
    n ∈ l.foldl allProviderNames.add keys ↔
      n ∈ keys ∨ (n ∈ l.map Prod.fst ∧ n ≠ "NONE") := by
  induction l generalizing keys with
  | nil => simp
  | cons e t ih =>
    rw [List.foldl_cons, ih]
    unfold allProviderNames.add keyInsert
    by_cases hnone : e.1 = "NONE"
    · simp only [hnone, if_true, List.map_cons, List.mem_cons]
      constructor
      · rintro (h | h)
        · exact Or.inl h
        · exact Or.inr ⟨Or.inr h.1, h.2⟩
      · rintro (h | ⟨h | h, h2⟩)
        · exact Or.inl h
        · exact absurd h h2
        · exact Or.inr ⟨h, h2⟩
    · simp only [hnone, if_false, List.map_cons, List.mem_cons]
      by_cases hmem : e.1 ∈ keys
      · simp only [hmem, if_true]
        constructor
        · rintro (h | h)
          · exact Or.inl h
          · exact Or.inr ⟨Or.inr h.1, h.2⟩
        · rintro (h | ⟨h | h, h2⟩)
          · exact Or.inl h
          · left; rw [h]; exact hmem
          · exact Or.inr ⟨h, h2⟩
      · simp only [hmem, if_false, List.mem_append, List.mem_singleton]
        constructor
        · rintro ((h | h) | h)
          · exact Or.inl h
          · exact Or.inr ⟨Or.inl h, by rw [h]; exact hnone⟩
          · exact Or.inr ⟨Or.inr h.1, h.2⟩
        · rintro (h | ⟨h | h, h2⟩)
          · exact Or.inl (Or.inl h)
          · exact Or.inl (Or.inr h)
          · exact Or.inr ⟨h, h2⟩

theorem nodup_fold_add (l : List (String × Bool)) (keys : List String)
    (h : keys.Nodup) : (l.foldl allProviderNames.add keys).Nodup := by
  induction l generalizing keys with
  | nil => simpa
  | cons e t ih =>
    rw [List.foldl_cons]
    apply ih
    unfold allProviderNames.add keyInsert
    by_cases hnone : e.1 = "NONE"
    · simpa [hnone] using h
    · by_cases hmem : e.1 ∈ keys
      · simpa [hnone, hmem] using h
      · simp only [hnone, hmem, if_false]
        exact List.Nodup.append h (List.nodup_singleton _)
          (by
            intro a ha hb
            rw [List.mem_singleton] at hb
            exact hmem (hb ▸ ha))

theorem fold_collect (l acc : List String) :
    l.foldl (fun names providerName => names ++ [providerName]) acc = acc ++ l := by
  induction l generalizing acc with
  | nil => simp
  | cons a t ih => rw [List.foldl_cons, ih]; simp

theorem allProviderNames_eq (reg : Registry) (enumerate : List String → List String) :
    allProviderNames reg enumerate =
      sortStrings (enumerate (reg.DNSProviderTypes.foldl allProviderNames.add
        (reg.RegistrarTypes.foldl allProviderNames.add []))) := by
  unfold allProviderNames
  simp only [fold_collect, List.nil_append]

/-- C19: `allProviderNames` returns a strictly ascending list, hence sorted and
without duplicates, that contains a name if and only if it is a key of at least one
of the two registries and is not `NONE`; the list does not depend on the order in
which the local map is enumerated, and the rows of the feature matrix follow it. -/
theorem allProviderNames_sorted_set (reg : Registry)
    (enumerate : List String → List String)
    (hperm : ∀ l, (enumerate l).Perm l) :
    (allProviderNames reg enumerate).Sorted (fun a b => stringLess a b = true) ∧
    (allProviderNames reg enumerate).Nodup ∧
    (∀ n, n ∈ allProviderNames reg enumerate ↔
      (n ∈ reg.RegistrarTypes.map Prod.fst ∨ n ∈ reg.DNSProviderTypes.map Prod.fst) ∧
        n ≠ "NONE") ∧
    (∀ enumerate2 : List String → List String, (∀ l, (enumerate2 l).Perm l) →
      allProviderNames reg enumerate2 = allProviderNames reg enumerate) ∧
    (∀ ToLower : String → String,
      (markdownTable.tableData ToLower (matrixData reg enumerate)
        (allProviderNames reg enumerate)).map List.head? =
      (allProviderNames reg enumerate).map
        (fun n => some ("[`" ++ n ++ "`](" ++ ToLower n ++ ".md)"))) := by
  have hnd0 : (reg.DNSProviderTypes.foldl allProviderNames.add
      (reg.RegistrarTypes.foldl allProviderNames.add [])).Nodup :=
    nodup_fold_add _ _ (nodup_fold_add _ _ List.nodup_nil)
  have hpermAll : ∀ e : List String → List String, (∀ l, (e l).Perm l) →
      (allProviderNames reg e).Perm (reg.DNSProviderTypes.foldl allProviderNames.add
        (reg.RegistrarTypes.foldl allProviderNames.add [])) := by
    intro e he
    rw [allProviderNames_eq]
    exact (sortStrings_perm _).trans (he _)
  have hnd : (allProviderNames reg enumerate).Nodup :=
    (hpermAll enumerate hperm).nodup_iff.mpr hnd0
  have hsorted : ∀ e : List String → List String,
      (allProviderNames reg e).Sorted (fun a b => stringLess b a = false) := by
    intro e
    rw [allProviderNames_eq]
    exact sortStrings_sorted _
  refine ⟨?_, hnd, ?_, ?_, ?_⟩
  · have h2 := List.Pairwise.and (hsorted enumerate) hnd
    refine List.Pairwise.imp ?_ h2
    intro a b hab
    rw [stringLess_iff]
    exact lt_of_le_of_ne ((stringLE_iff a b).mp hab.1) hab.2
  · intro n
    rw [(hpermAll enumerate hperm).mem_iff, mem_fold_add, mem_fold_add]
    simp only [List.not_mem_nil, false_or]
    constructor
    · rintro (h | h)
      · exact ⟨Or.inl h.1, h.2⟩
      · exact ⟨Or.inr h.1, h.2⟩
    · rintro ⟨h | h, h2⟩
      · exact Or.inl ⟨h, h2⟩
      · exact Or.inr ⟨h, h2⟩
  · intro enumerate2 hperm2
    exact @List.eq_of_perm_of_sorted _ _ stringLE_antisymm _ _
      ((hpermAll enumerate2 hperm2).trans (hpermAll enumerate hperm).symm)
      (hsorted enumerate2) (hsorted enumerate)
  · intro ToLower
    simp [markdownTable.tableData]

/-- The scenario of C19: the sample registries, with `CLOUDFLAREAPI` registered both
as registrar and as DNS provider and the local map enumerated backwards, give the
three names in ascending order. -/
theorem allProviderNames_sorted_set_witness :
    allProviderNames sampleRegistry List.reverse = ["CLOUDFLAREAPI", "DESEC", "NAMEDOTCOM"] ∧
    allProviderNames sampleRegistry id = allProviderNames sampleRegistry List.reverse :=
  ⟨by decide,
   (allProviderNames_sorted_set sampleRegistry List.reverse
      (fun l => List.reverse_perm l)).2.2.2.1 id (fun l => List.Perm.refl l)⟩

/-! ## Claims on replaceInlineContent -/

theorem startsWith_iff (s p : Bytes) : startsWith s p = true ↔ ∃ t, s = p ++ t := by
  induction s generalizing p with
  | nil =>
    cases p with
    | nil => simp [startsWith]
    | cons b p => simp [startsWith]
  | cons a s ih =>
    cases p with
    | nil => simp [startsWith]
    | cons b p =>
      simp only [startsWith, Bool.and_eq_true, decide_eq_true_eq, ih, List.cons_append,
        List.cons.injEq]
      constructor
      · rintro ⟨h, t, ht⟩
        exact ⟨t, h, ht⟩
      · rintro ⟨t, h, ht⟩
        exact ⟨h, t, ht⟩

theorem Index_spec (s substr : Bytes) (h : 0 ≤ Index s substr) :
    ∃ before after, s = before ++ substr ++ after ∧
      (before.length : Int) = Index s substr := by
  induction s with
  | nil =>
    unfold Index at h ⊢
    by_cases hs : startsWith [] substr = true
    · obtain ⟨t, ht⟩ := (startsWith_iff _ _).mp hs
      refine ⟨[], t, by simpa using ht, by simp [hs]⟩
    · simp [hs] at h
  | cons c s ih =>
    unfold Index at h ⊢
    by_cases hs : startsWith (c :: s) substr = true
    · obtain ⟨t, ht⟩ := (startsWith_iff _ _).mp hs
      refine ⟨[], t, by simpa using ht, by simp [hs]⟩
    · simp only [hs, Bool.false_eq_true, if_false] at h ⊢
      by_cases hi : Index s substr < 0
      · simp [hi] at h
      · simp only [hi, if_false]
        obtain ⟨before, after, hsplit, hlen⟩ := ih (Int.not_lt.mp hi)
        refine ⟨c :: before, after, by rw [hsplit]; simp, ?_⟩
        rw [← hlen]
        simp

theorem Index_first (s substr : Bytes) (j : Nat) (h : (j : Int) < Index s substr) :
    startsWith (s.drop j) substr = false := by
  induction s generalizing j with
  | nil =>
    unfold Index at h
    by_cases hs : startsWith [] substr = true
    · simp only [hs, if_true] at h; omega
    · simp only [hs, Bool.false_eq_true, if_false] at h; omega
  | cons c s ih =>
    unfold Index at h
    by_cases hs : startsWith (c :: s) substr = true
    · simp only [hs, if_true] at h; omega
    · simp only [hs, Bool.false_eq_true, if_false] at h
      by_cases hi : Index s substr < 0
      · simp only [hi, if_true] at h; omega
      · simp only [hi, if_false] at h
        cases j with
        | zero => simpa using hs
        | succ k =>
          have hk : (k : Int) < Index s substr := by omega
          simpa using ih k hk

theorem replaceInlineContent_eq (ReadFile : String → Except String Bytes)
    (WriteFile : String → Bytes → Option String) (file : String)
    (startMarker endMarker newContent content : Bytes)
    (hread : ReadFile file = .ok content)
    (hstart : 0 ≤ Index content startMarker)
    (hend : 0 ≤ Index content endMarker)
    (hord : Index content startMarker + startMarker.length ≤ Index content endMarker) :
    replaceInlineContent ReadFile WriteFile file startMarker endMarker newContent =
      (match WriteFile file
          (content.take (Index content startMarker).toNat ++ startMarker ++ [10] ++
            newContent ++ endMarker ++
            content.drop ((Index content endMarker).toNat + endMarker.length)) with
       | some err => .error (.panic err)
       | none =>
         .ok (content.take (Index content startMarker).toNat ++ startMarker ++ [10] ++
            newContent ++ endMarker ++
            content.drop ((Index content endMarker).toNat + endMarker.length))) ∧
    content =
      content.take (Index content startMarker).toNat ++ startMarker ++
        (content.drop ((Index content startMarker).toNat + startMarker.length)).take
          ((Index content endMarker).toNat -
            ((Index content startMarker).toNat + startMarker.length)) ++
        endMarker ++ content.drop ((Index content endMarker).toNat + endMarker.length) := by
  obtain ⟨pre1, post1, h1, hl1⟩ := Index_spec content startMarker hstart
  obtain ⟨pre2, post2, h2, hl2⟩ := Index_spec content endMarker hend
  rw [← hl1, ← hl2] at hord ⊢
  simp only [Int.toNat_ofNat]
  have hord2 : pre1.length + startMarker.length ≤ pre2.length := by omega
  have hlen1 : pre1.length ≤ content.length := by
    have := congrArg List.length h1
    simp only [List.length_append] at this
    omega
  have hlen2 : pre2.length + endMarker.length ≤ content.length := by
    have := congrArg List.length h2
    simp only [List.length_append] at this
    omega
  have htake1 : content.take pre1.length = pre1 := by
    rw [h1, List.append_assoc, List.take_left]
  have hdrop2 : content.drop (pre2.length + endMarker.length) = post2 := by
    have : pre2.length + endMarker.length = (pre2 ++ endMarker).length := by simp
    rw [h2, this, List.drop_left]
  have hdrop1 : content.drop (pre1.length + startMarker.length) = post1 := by
    have : pre1.length + startMarker.length = (pre1 ++ startMarker).length := by simp
    rw [h1, this, List.drop_left]
  have hpre2 : pre2 = pre1 ++ startMarker ++
      post1.take (pre2.length - (pre1.length + startMarker.length)) := by
    have ht : content.take pre2.length = pre2 := by
      rw [h2, List.append_assoc, List.take_left]
    have h3 : (pre1 ++ startMarker ++ post1).take pre2.length =
        pre1 ++ startMarker ++
          post1.take (pre2.length - (pre1.length + startMarker.length)) := by
      rw [List.take_append_eq_append_take,
        List.take_of_length_le (by simp only [List.length_append]; omega)]
      simp only [List.length_append]
    rw [← h1] at h3
    exact ht.symm.trans h3
  refine ⟨?_, ?_⟩
  · unfold replaceInlineContent
    rw [hread]
    simp only [← hl1, ← hl2]
    have hc1 : ¬ ((pre1.length : Int) < 0 ∨ (content.length : Int) < pre1.length) := by
      omega
    have hc2 : ¬ ((pre2.length : Int) + endMarker.length < 0 ∨
        (content.length : Int) < (pre2.length : Int) + endMarker.length) := by
      omega
    rw [if_neg hc1, if_neg hc2]
    have hn : ((pre2.length : Int) + (endMarker.length : Int)).toNat =
        pre2.length + endMarker.length := by omega
    rw [hn, Int.toNat_ofNat]
    simp only [List.append_assoc]
  · rw [htake1, hdrop1, hdrop2, ← hpre2]
    exact h2

/-- C20: `replaceInlineContent` replaces only the text between the markers. When the
file is read, both markers occur and the first start marker ends at or before the
first end marker begins, the bytes handed to `os.WriteFile` (and written, unless it
fails) are the content up to the start marker, the start marker, a newline, the new
content, the end marker and the content after the end marker; the old content is
these same parts with its own text between the markers, so the text before the start
marker and after the end marker is preserved and both markers are kept; and neither
marker occurs at an index before the one used. -/
theorem replaceInlineContent_between_markers (ReadFile : String → Except String Bytes)
    (WriteFile : String → Bytes → Option String) (file : String)
    (startMarker endMarker newContent content : Bytes)
    (hread : ReadFile file = .ok content)
    (hstart : 0 ≤ Index content startMarker)
    (hend : 0 ≤ Index content endMarker)
    (hord : Index content startMarker + startMarker.length ≤ Index content endMarker) :
    replaceInlineContent ReadFile WriteFile file startMarker endMarker newContent =
      (match WriteFile file
          (content.take (Index content startMarker).toNat ++ startMarker ++ [10] ++
            newContent ++ endMarker ++
            content.drop ((Index content endMarker).toNat + endMarker.length)) with
       | some err => .error (.panic err)
       | none =>
         .ok (content.take (Index content startMarker).toNat ++ startMarker ++ [10] ++
            newContent ++ endMarker ++
            content.drop ((Index content endMarker).toNat + endMarker.length))) ∧
    content =
      content.take (Index content startMarker).toNat ++ startMarker ++
        (content.drop ((Index content startMarker).toNat + startMarker.length)).take
          ((Index content endMarker).toNat -
            ((Index content startMarker).toNat + startMarker.length)) ++
        endMarker ++ content.drop ((Index content endMarker).toNat + endMarker.length) ∧
    (∀ j : Nat, (j : Int) < Index content startMarker →
      startsWith (content.drop j) startMarker = false) ∧
    (∀ j : Nat, (j : Int) < Index content endMarker →
      startsWith (content.drop j) endMarker = false) := by
  have h := replaceInlineContent_eq ReadFile WriteFile file startMarker endMarker newContent
    content hread hstart hend hord
  exact ⟨h.1, h.2, Index_first content startMarker, Index_first content endMarker⟩

/-- The scenario of C20: the text between the markers is replaced, the text before
and after is kept. -/
theorem replaceInlineContent_between_markers_witness :
    replaceInlineContent (fun _ => .ok (bytesOf "a\n<!--s-->\nold\n<!--e-->\nz"))
        (fun _ _ => none) "documentation/provider/index.md"
        (bytesOf "<!--s-->") (bytesOf "<!--e-->") (bytesOf "new\n") =
      .ok (bytesOf "a\n<!--s-->\nnew\n<!--e-->\nz") :=
  (replaceInlineContent_between_markers
    (fun _ => .ok (bytesOf "a\n<!--s-->\nold\n<!--e-->\nz"))
    (fun _ _ => none) "documentation/provider/index.md"
    (bytesOf "<!--s-->") (bytesOf "<!--e-->") (bytesOf "new\n")
    (bytesOf "a\n<!--s-->\nold\n<!--e-->\nz")
    rfl (by decide) (by decide) (by decide)).1

end Generate
